import Mathlib

/-!
Shallow embedding of the FormQ hybrid field-resolution pipeline.

Sources embedded (paths in the repository):
  - src/shared/constants/fieldDenylist.ts   (isFieldDenylisted and denylists)
  - the Field Mapper module (normalizeText, mapFieldsToProfile, tryFuzzyMatch,
    createSuggestedMappings)
  - src/background/ai/ResponseValidator.ts  (mergeWithStaticMappings)
  - src/background/ai/LLMOrchestrator.ts    (fill, staticFill, DEFAULT_CONFIG)
  - the background fill-trigger flow (static mapping, unmapped-field filter,
    LLM invocation)
  - src/background/services/CacheService.ts (buildCacheKey, hashFormSignature, get)
  - the StorageService cache layer (getCache / setCache with TTL)
  - the EmbeddingService (hashText, cacheEmbedding, embedBatch)
  - src/background/ai/RAGEngine.ts          (estimateTokens, buildContext)
  - src/shared/storage/VectorStore.ts       (cosineSimilarity, search)

JavaScript numbers are modelled as ℚ where the code only compares and copies
them (confidences, similarities carried by the RAG packer) and as ℝ where the
code computes square roots (cosine similarity); machine 32-bit integer
wrap-around (the JS bitwise hash) is modelled explicitly on ℤ.
-/

/-! ### JavaScript string primitives -/

/-- JS `String.prototype.toLowerCase`, restricted to the ASCII range the
repository's inputs use. -/
def jsToLower (s : String) : String := String.mk (s.data.map Char.toLower)

/-- Characters matched by the JS `\s` class (the repository only ever meets
ASCII whitespace). -/
def isWsChar (c : Char) : Bool := c == ' ' || c == '\t' || c == '\n' || c == '\r'

/-- JS `String.prototype.trim`. -/
def jsTrim (s : String) : String :=
  String.mk (((s.data.dropWhile isWsChar).reverse.dropWhile isWsChar).reverse)

/-- Helper for `collapseWs`: the flag records whether the previous character
was whitespace (so the current run is already represented). -/
def collapseWsAux : Bool → List Char → List Char
  | _, [] => []
  | prevWs, c :: cs =>
    if isWsChar c then
      if prevWs then collapseWsAux true cs else ' ' :: collapseWsAux true cs
    else c :: collapseWsAux false cs

/-- Collapse every whitespace run to a single space: JS `replace(/\s+/g, ' ')`. -/
def collapseWs (l : List Char) : List Char := collapseWsAux false l

/-- Characters matched by the JS `\w` class. -/
def isWordChar (c : Char) : Bool := (c.isAlpha && c.toNat < 128) || c.isDigit || c == '_'

/-- `normalizeText` from the shared utils: lower-case, trim, collapse
whitespace, strip everything outside `[\w\s-]`. -/
def normalizeText (s : String) : String :=
  String.mk ((collapseWs (jsTrim (jsToLower s)).data).filter
    (fun c => isWordChar c || isWsChar c || c == '-'))

/-- JS `String.prototype.includes`. -/
def strIncludes (s sub : String) : Bool :=
  s.data.tails.any (fun t => sub.data.isPrefixOf t)

/-- Does `a`, then a whitespace run (possibly empty), then `b` occur starting
at the head of `l`?  Used to model regexes of the shape `/a\s*b/`; exact as
long as `b` does not itself start with whitespace (it never does here). -/
def matchesAtGap (a b : List Char) (l : List Char) : Bool :=
  a.isPrefixOf l && b.isPrefixOf ((l.drop a.length).dropWhile isWsChar)

/-- `/a\s*b/.test s` for the patterns of the field mapper. -/
def containsGap (s a b : String) : Bool :=
  s.data.tails.any (matchesAtGap a.data b.data)

/-- JS truthiness of an optional string attribute (`undefined` and `""` are
falsy). -/
def optTruthy : Option String → Bool
  | none => false
  | some v => !(v == "")

/-- JS `x || ''` on an optional string. -/
def orEmpty : Option String → String
  | none => ""
  | some s => s

/-! ### Data model (src/shared/types) -/

inductive InputType
  | text | email | tel | url | password | number | date | datetimeLocal | time
  | select | radio | checkbox | textarea | hidden | file | unknown
deriving DecidableEq

inductive SemanticClass
  | first_name | last_name | full_name
  | email | phone | address_line1 | address_line2
  | city | state | zip | country
  | company | job_title | website
  | username | password
  | date_of_birth | message
  | unknown
deriving DecidableEq

/-- The structural attributes of a `FieldSignature`. -/
structure FieldAttributes where
  name : Option String
  id : Option String
  placeholder : Option String
  autocomplete : Option String
  ariaLabel : Option String
deriving DecidableEq

/-- A detected form field.  `domPath` and the contextual snippets are never
inspected by the functions the claims are about, so they are omitted. -/
structure FieldSignature where
  id : String
  inputType : InputType
  normalizedLabel : String
  semanticClass : SemanticClass
  attributes : FieldAttributes
deriving DecidableEq

structure FormSignature where
  id : String
  domain : String
  fields : List FieldSignature
deriving DecidableEq

/-- One profile key/value pair (the `category` attribute is never read by the
embedded functions and is omitted). -/
structure ContextField where
  key : String
  value : String
  isEncrypted : Bool
deriving DecidableEq

structure ContextDocument where
  name : String
  content : String
  type : String
deriving DecidableEq

structure StaticContext where
  fields : List ContextField
  documents : List ContextDocument
deriving DecidableEq

structure Profile where
  id : String
  name : String
  staticContext : StaticContext
deriving DecidableEq

inductive MappingSource
  | llm | cache | static | learned
deriving DecidableEq

structure FieldMapping where
  fieldSignature : FieldSignature
  value : String
  confidence : ℚ
  source : MappingSource
deriving DecidableEq

/-! ### src/shared/constants/fieldDenylist.ts -/

def FIELD_DENYLIST : List String :=
  ["password", "passwd", "pwd", "current-password", "new-password",
   "confirm-password", "confirmpassword", "password_confirmation",
   "otp", "2fa", "totp", "verification-code", "verificationcode", "mfa",
   "pin", "security-code", "securitycode",
   "cvv", "cvc", "cvv2", "cvc2", "card-cvc", "card-cvv", "security-number",
   "token", "csrf", "nonce", "captcha", "recaptcha", "hcaptcha",
   "ssn", "social-security", "socialsecurity", "tax-id", "taxid",
   "routing-number", "routingnumber", "account-number", "accountnumber"]

def AUTOCOMPLETE_DENYLIST : List String :=
  ["new-password", "current-password", "one-time-code", "cc-csc"]

/-- `isFieldDenylisted` from fieldDenylist.ts. -/
def isFieldDenylisted (field : FieldSignature) : Bool :=
  if field.inputType == .password then true
  else if optTruthy field.attributes.autocomplete &&
      AUTOCOMPLETE_DENYLIST.contains (jsTrim (jsToLower (orEmpty field.attributes.autocomplete)))
    then true
  else
    let labelLower := jsToLower field.normalizedLabel
    if FIELD_DENYLIST.any (fun denied => strIncludes labelLower denied) then true
    else
      let nameAttr := jsToLower (orEmpty field.attributes.name)
      let idAttr := jsToLower (orEmpty field.attributes.id)
      FIELD_DENYLIST.any (fun denied => strIncludes nameAttr denied || strIncludes idAttr denied)

/-! ### The Field Mapper: semantic and fuzzy static matching -/

def SEMANTIC_TO_PROFILE_KEY : SemanticClass → List String
  | .first_name => ["firstName", "first_name", "givenName"]
  | .last_name => ["lastName", "last_name", "familyName", "surname"]
  | .full_name => ["fullName", "full_name", "name"]
  | .date_of_birth => ["dateOfBirth", "dob", "birthDate"]
  | .email => ["email", "emailAddress", "email_address"]
  | .phone => ["phone", "phoneNumber", "phone_number", "mobile", "telephone"]
  | .address_line1 => ["address", "addressLine1", "address_line1", "street", "streetAddress"]
  | .address_line2 => ["addressLine2", "address_line2", "apt", "suite", "unit"]
  | .city => ["city", "town", "locality"]
  | .state => ["state", "province", "region"]
  | .zip => ["zip", "zipCode", "zip_code", "postalCode", "postal_code"]
  | .country => ["country", "countryName"]
  | .company => ["company", "organization", "employer", "companyName"]
  | .job_title => ["jobTitle", "job_title", "title", "position", "role"]
  | .website => ["website", "url", "homepage", "personalWebsite"]
  | .username => ["username", "user", "login"]
  | .password => []
  | .message => ["message", "comment", "note", "description"]
  | .unknown => []

/-- `profileFields.find(f => f.key === key)`. -/
def findProfileField (pfs : List ContextField) (key : String) : Option ContextField :=
  pfs.find? (fun f => f.key == key)

/-- The semantic-class tier of `mapFieldsToProfile`: first potential key whose
profile field holds a truthy value wins, confidence 1.0. -/
def semanticTierMatch (field : FieldSignature) (pfs : List ContextField) : Option FieldMapping :=
  (SEMANTIC_TO_PROFILE_KEY field.semanticClass).findSome? (fun key =>
    match findProfileField pfs key with
    | some pf => if pf.value == "" then none else some ⟨field, pf.value, 1, .static⟩
    | none => none)

/-- The regex tests of the `fuzzyPatterns` table, paired with their key lists. -/
def fuzzyPatterns : List ((String → Bool) × List String) :=
  [(fun s => containsGap s "first" "name" || strIncludes s "fname" || strIncludes s "given",
    ["firstName", "first_name", "givenName"]),
   (fun s => containsGap s "last" "name" || strIncludes s "lname" || strIncludes s "surname" ||
       strIncludes s "family",
    ["lastName", "last_name", "familyName"]),
   (fun s => containsGap s "full" "name" || containsGap s "your" "name",
    ["fullName", "full_name", "name"]),
   (fun s => strIncludes s "email" || strIncludes s "e-mail",
    ["email", "emailAddress", "email_address"]),
   (fun s => strIncludes s "phone" || strIncludes s "mobile" || strIncludes s "cell" ||
       strIncludes s "tel",
    ["phone", "phoneNumber", "phone_number"]),
   (fun s => strIncludes s "company" || strIncludes s "organization" || strIncludes s "employer",
    ["company", "companyName"]),
   (fun s => strIncludes s "title" || strIncludes s "position" || strIncludes s "role",
    ["jobTitle", "job_title"]),
   (fun s => strIncludes s "city" || strIncludes s "town", ["city"]),
   (fun s => strIncludes s "state" || strIncludes s "province", ["state"]),
   (fun s => strIncludes s "zip" || strIncludes s "postal", ["zip", "zipCode", "postalCode"]),
   (fun s => strIncludes s "address" || strIncludes s "street",
    ["address", "addressLine1", "address_line1"])]

/-- `tryFuzzyMatch`: exact-key tier (0.95), fuzzy-pattern tier (0.8), partial
substring tier (0.7). -/
def tryFuzzyMatch (field : FieldSignature) (pfs : List ContextField) : Option FieldMapping :=
  let nl := jsToLower (normalizeText field.normalizedLabel)
  match pfs.find? (fun pf => jsToLower (normalizeText pf.key) == nl) with
  | some pf => some ⟨field, pf.value, 0.95, .static⟩
  | none =>
    match fuzzyPatterns.findSome? (fun pat =>
      if pat.1 nl then
        pat.2.findSome? (fun key =>
          match findProfileField pfs key with
          | some pf =>
            if pf.value == "" then none
            else some (⟨field, pf.value, 0.8, .static⟩ : FieldMapping)
          | none => none)
      else none) with
    | some m => some m
    | none =>
      match pfs.find? (fun pf =>
        let nk := jsToLower (normalizeText pf.key)
        strIncludes nk nl || strIncludes nl nk) with
      | some pf => some ⟨field, pf.value, 0.7, .static⟩
      | none => none

/-- The per-field body of the `mapFieldsToProfile` loop (semantic tier, then
fuzzy fallback). -/
def mapFieldOne (field : FieldSignature) (pfs : List ContextField) : Option FieldMapping :=
  let m0 := if field.semanticClass == .unknown then none else semanticTierMatch field pfs
  match m0 with
  | some m => some m
  | none => tryFuzzyMatch field pfs

/-- `mapFieldsToProfile`: the loop skips `password`-class fields and pushes
each produced mapping, i.e. a filterMap. -/
def mapFieldsToProfile (fields : List FieldSignature) (profile : Profile) : List FieldMapping :=
  fields.filterMap (fun field =>
    if field.semanticClass == .password then none
    else mapFieldOne field profile.staticContext.fields)

/-- JS `a?.value || b?.value` on two optional profile fields. -/
def jsOrStr (a b : Option String) : Option String :=
  match a with
  | some v => if v == "" then b else some v
  | none => b

/-- `fullName.trim().split(/\s+/)` restricted to its use site: the maximal
non-whitespace runs (the source's possible leading `""` piece cannot occur
after `trim`, and for the empty string both sides fail the `length >= 2`
test). -/
def splitWsRuns (s : String) : List String :=
  (((jsTrim s).data.foldr
      (fun c acc =>
        if isWsChar c then [] :: acc
        else
          match acc with
          | [] => [[c]]
          | w :: ws => (c :: w) :: ws)
      []).filter (fun w => !w.isEmpty)).map String.mk

/-- The push pattern of `createSuggestedMappings`:
`if (field && !mappings.some(m => m.fieldSignature.id === field.id)) mappings.push(...)`,
always at confidence 0.9 and source static. -/
def pushIfAbsent (mappings : List FieldMapping) (field : FieldSignature) (value : String) :
    List FieldMapping :=
  if mappings.any (fun m => m.fieldSignature.id == field.id) then mappings
  else mappings ++ [⟨field, value, 0.9, .static⟩]

/-- First block of `createSuggestedMappings`: split a profile full name when
the form asks for first and last name. -/
def addSplitNameMappings (fields : List FieldSignature) (pfs : List ContextField)
    (mappings : List FieldMapping) : List FieldMapping :=
  let hasFirstNameField := fields.any (fun f => f.semanticClass == .first_name)
  let hasLastNameField := fields.any (fun f => f.semanticClass == .last_name)
  let hasFullNameField := fields.any (fun f => f.semanticClass == .full_name)
  if !hasFullNameField && hasFirstNameField && hasLastNameField then
    let fullName := jsOrStr ((findProfileField pfs "fullName").map (fun f => f.value))
      ((findProfileField pfs "full_name").map (fun f => f.value))
    if optTruthy fullName && (findProfileField pfs "firstName").isNone &&
        (findProfileField pfs "lastName").isNone then
      let parts := splitWsRuns (orEmpty fullName)
      if 2 ≤ parts.length then
        let firstName := parts.headD ""
        let lastName := String.intercalate " " (parts.drop 1)
        let m1 :=
          match fields.find? (fun f => f.semanticClass == .first_name) with
          | some fnf => pushIfAbsent mappings fnf firstName
          | none => mappings
        match fields.find? (fun f => f.semanticClass == .last_name) with
        | some lnf => pushIfAbsent m1 lnf lastName
        | none => m1
      else mappings
    else mappings
  else mappings

/-- Second block of `createSuggestedMappings`: join profile first/last name
when the form asks for a single full-name field. -/
def addJoinNameMapping (fields : List FieldSignature) (pfs : List ContextField)
    (mappings : List FieldMapping) : List FieldMapping :=
  let hasFirstNameField := fields.any (fun f => f.semanticClass == .first_name)
  let hasLastNameField := fields.any (fun f => f.semanticClass == .last_name)
  let hasFullNameField := fields.any (fun f => f.semanticClass == .full_name)
  if hasFullNameField && !hasFirstNameField && !hasLastNameField then
    let firstName := jsOrStr ((findProfileField pfs "firstName").map (fun f => f.value))
      ((findProfileField pfs "first_name").map (fun f => f.value))
    let lastName := jsOrStr ((findProfileField pfs "lastName").map (fun f => f.value))
      ((findProfileField pfs "last_name").map (fun f => f.value))
    if optTruthy firstName && optTruthy lastName &&
        (findProfileField pfs "fullName").isNone then
      match fields.find? (fun f => f.semanticClass == .full_name) with
      | some fnf => pushIfAbsent mappings fnf (orEmpty firstName ++ " " ++ orEmpty lastName)
      | none => mappings
    else mappings
  else mappings

/-- `createSuggestedMappings`: static mapping plus the two name-handling
blocks. -/
def createSuggestedMappings (fields : List FieldSignature) (profile : Profile) :
    List FieldMapping :=
  addJoinNameMapping fields profile.staticContext.fields
    (addSplitNameMappings fields profile.staticContext.fields
      (mapFieldsToProfile fields profile))

/-! ### ResponseValidator.mergeWithStaticMappings

The source uses a JS `Map` keyed by field id.  `Map.set` on a present key
updates the value in place keeping insertion order; on an absent key it
appends; `Array.from(map.values())` lists the values in insertion order.  The
map is modelled as an association list with exactly those operations. -/

/-- JS `Map.set`. -/
def mapSet (m : List (String × FieldMapping)) (k : String) (v : FieldMapping) :
    List (String × FieldMapping) :=
  if m.any (fun p => p.1 == k) then m.map (fun p => if p.1 == k then (k, v) else p)
  else m ++ [(k, v)]

/-- JS `Map.get`. -/
def mapLookup (m : List (String × FieldMapping)) (k : String) : Option FieldMapping :=
  (m.find? (fun p => p.1 == k)).map (fun p => p.2)

/-- `result.set(mapping.fieldSignature.id, mapping)` of the first merge loop. -/
def mergeSetStatic (m : List (String × FieldMapping)) (mp : FieldMapping) :
    List (String × FieldMapping) :=
  mapSet m mp.fieldSignature.id mp

/-- The second merge loop's body: override only on strictly greater
confidence. -/
def mergeStepLlm (m : List (String × FieldMapping)) (mp : FieldMapping) :
    List (String × FieldMapping) :=
  match mapLookup m mp.fieldSignature.id with
  | some existing =>
    if existing.confidence < mp.confidence then mapSet m mp.fieldSignature.id mp else m
  | none => mapSet m mp.fieldSignature.id mp

/-- `mergeWithStaticMappings`: static mappings first, then each LLM mapping
overrides only when its confidence is strictly greater. -/
def mergeWithStaticMappings (llmMappings staticMappings : List FieldMapping) :
    List FieldMapping :=
  let m0 := staticMappings.foldl mergeSetStatic []
  let m1 := llmMappings.foldl mergeStepLlm m0
  m1.map (fun p => p.2)

/-! ### CacheService (src/background/services/CacheService.ts) and the
StorageService cache layer -/

/-- Wrap an integer to JS `| 0` semantics (signed 32-bit). -/
def toInt32 (x : ℤ) : ℤ := (x + 2 ^ 31) % 2 ^ 32 - 2 ^ 31

/-- One step of the JS string hash `hash = ((hash << 5) - hash) + char;
hash = hash & hash`. -/
def jsHashStep (h : ℤ) (c : Char) : ℤ := toInt32 (toInt32 (h * 32) - h + c.toNat)

/-- The 32-bit string hash shared by CacheService and the utils. -/
def jsHashString (s : String) : ℤ := s.data.foldl jsHashStep 0

/-- JS default string comparison (by code unit), as strict less-than. -/
def jsStrLtChars : List Char → List Char → Bool
  | [], [] => false
  | [], _ :: _ => true
  | _ :: _, [] => false
  | a :: as, b :: bs =>
    if a.toNat < b.toNat then true
    else if b.toNat < a.toNat then false
    else jsStrLtChars as bs

/-- Insert a string into a sorted list before the first strictly greater
element (so ties keep their original relative order). -/
def insertSortedString (x : String) : List String → List String
  | [] => [x]
  | y :: ys =>
    if jsStrLtChars x.data y.data then x :: y :: ys else y :: insertSortedString x ys

/-- `Array.prototype.sort()` on strings: stable sort by the default
lexicographic code-unit comparator, as stable insertion sort. -/
def jsSortStrings : List String → List String
  | [] => []
  | x :: xs => insertSortedString x (jsSortStrings xs)

/-- The string-literal name of a `SemanticClass` (the TS union value). -/
def semanticClassStr : SemanticClass → String
  | .first_name => "first_name"
  | .last_name => "last_name"
  | .full_name => "full_name"
  | .email => "email"
  | .phone => "phone"
  | .address_line1 => "address_line1"
  | .address_line2 => "address_line2"
  | .city => "city"
  | .state => "state"
  | .zip => "zip"
  | .country => "country"
  | .company => "company"
  | .job_title => "job_title"
  | .website => "website"
  | .username => "username"
  | .password => "password"
  | .date_of_birth => "date_of_birth"
  | .message => "message"
  | .unknown => "unknown"

/-- The string-literal name of an `InputType` (the TS union value). -/
def inputTypeStr : InputType → String
  | .text => "text"
  | .email => "email"
  | .tel => "tel"
  | .url => "url"
  | .password => "password"
  | .number => "number"
  | .date => "date"
  | .datetimeLocal => "datetime-local"
  | .time => "time"
  | .select => "select"
  | .radio => "radio"
  | .checkbox => "checkbox"
  | .textarea => "textarea"
  | .hidden => "hidden"
  | .file => "file"
  | .unknown => "unknown"

/-- `hashFormSignature`: hash of domain plus the sorted
`semanticClass:inputType` multiset of the fields. -/
def hashFormSignature (fs : FormSignature) : ℤ :=
  let fieldIds := String.intercalate "|" (jsSortStrings
    (fs.fields.map (fun f => semanticClassStr f.semanticClass ++ ":" ++ inputTypeStr f.inputType)))
  jsHashString (fs.domain ++ ":" ++ fieldIds)

/-- A cache key.  The source renders this as the string
`llm_fill_<profileId>_<hash in base 36>`; since the base-36 rendering of the
absolute hash contains no underscore, that string determines and is determined
by this pair, so the pair is used as the key. -/
structure CacheKey where
  profileId : String
  formHash : ℕ
deriving DecidableEq

/-- `buildCacheKey` from CacheService. -/
def buildCacheKey (fs : FormSignature) (profileId : String) : CacheKey :=
  ⟨profileId, (hashFormSignature fs).natAbs⟩

/-- The cached value stored by CacheService (`CachedFillResponse`). -/
structure CachedFillResponse where
  mappings : List FieldMapping
  tokensUsed : ℕ
  createdAt : ℕ
  hitCount : ℕ
deriving DecidableEq

/-- A row of the IndexedDB cache object store (`CacheEntry`). -/
structure StoredCacheEntry where
  key : CacheKey
  value : CachedFillResponse
  createdAt : ℕ
  expiresAt : Option ℕ
deriving DecidableEq

/-- IndexedDB `store.put`: replace the row with this key, or insert. -/
def storagePut (σ : List StoredCacheEntry) (e : StoredCacheEntry) : List StoredCacheEntry :=
  if σ.any (fun x => x.key == e.key) then σ.map (fun x => if x.key == e.key then e else x)
  else σ ++ [e]

/-- IndexedDB `store.get` on the cache store. -/
def storageFind (σ : List StoredCacheEntry) (k : CacheKey) : Option StoredCacheEntry :=
  σ.find? (fun e => e.key == k)

/-- `StorageService.getCache` at time `now`: a present entry whose
`expiresAt` is set and strictly in the past is dropped (the source deletes it
with a fire-and-forget promise; modelled as an immediate delete) and reported
as a miss. -/
def storageGetCache (σ : List StoredCacheEntry) (now : ℕ) (k : CacheKey) :
    Option CachedFillResponse × List StoredCacheEntry :=
  match storageFind σ k with
  | none => (none, σ)
  | some e =>
    match e.expiresAt with
    | some exp => if exp < now then (none, σ.filter (fun x => !(x.key == k))) else (some e.value, σ)
    | none => (some e.value, σ)

/-- `StorageService.setCache` at time `now` (a zero `ttlMs` is falsy in JS and
yields no expiry). -/
def storageSetCache (σ : List StoredCacheEntry) (now : ℕ) (k : CacheKey)
    (v : CachedFillResponse) (ttlMs : ℕ) : List StoredCacheEntry :=
  storagePut σ ⟨k, v, now, if ttlMs == 0 then none else some (now + ttlMs)⟩

def DEFAULT_TTL_MS : ℕ := 7 * 24 * 60 * 60 * 1000

/-- `CacheService.get` at time `now`: on a non-expired hit, bump the hit
counter and re-persist the entry with a fresh full TTL. -/
def cacheServiceGet (ttlMs : ℕ) (σ : List StoredCacheEntry) (now : ℕ)
    (fs : FormSignature) (profileId : String) :
    Option CachedFillResponse × List StoredCacheEntry :=
  let k := buildCacheKey fs profileId
  match storageGetCache σ now k with
  | (some cached, σ₁) =>
    let bumped := { cached with hitCount := cached.hitCount + 1 }
    (some bumped, storageSetCache σ₁ now k bumped ttlMs)
  | (none, σ₁) => (none, σ₁)

/-! ### LLMOrchestrator (src/background/ai/LLMOrchestrator.ts) and the
background fill-trigger flow

The remote stage inside `fill`'s `try` block (prompt building plus
`chatCompletion`) is abstracted into one observable outcome, and the
response validator into the outcome of `validate` on the raw content; `fill`
branches only on these.  The request's `useCache` flag and the cache state
are passed in — they are in scope in the source — and, exactly as in the
source, never read.  The event list records the externally visible calls the
code makes: entering the remote-LLM stage, or reading the response cache
(the latter is never emitted anywhere, faithfully to the source). -/

inductive FillSource
  | llm | static | cached | hybrid
deriving DecidableEq

structure FillResponse where
  mappings : List FieldMapping
  source : FillSource
  llmUsed : Bool
  tokensUsed : Option ℕ
  fallbackReason : Option String
deriving DecidableEq

structure OrchestratorConfig where
  fallbackToStatic : Bool
  maxRetries : ℕ
  timeout : ℕ
deriving DecidableEq

def DEFAULT_CONFIG : OrchestratorConfig := ⟨true, 2, 30000⟩

/-- Behaviour of the remote LLM/prompt stage for one request.  `throws`
covers any exception raised inside the `try` block (prompt building or the
HTTP client); `errInvalidKey`/`errRateLimited` are `OpenRouterError`s with
the two specially handled codes; `errOtherCode` an `OpenRouterError` with any
other code; `ok` a completed response whose first choice has the given
content (`none` models a missing content field) and token usage. -/
inductive LLMOutcome
  | throws (msg : String)
  | errInvalidKey
  | errRateLimited
  | errOtherCode (msg : String)
  | ok (content : Option String) (tokens : ℕ)
deriving DecidableEq

/-- What `ResponseValidator.validate` reports for a raw response: the `valid`
flag and the parsed mappings. -/
structure ValidationOutcome where
  valid : Bool
  mappings : List FieldMapping
deriving DecidableEq

inductive FlowEvent
  | cacheGet (profileId : String) (formHash : ℕ)
  | llmCall
deriving DecidableEq

/-- `LLMOrchestrator.staticFill`. -/
def staticFill (fields : List FieldSignature) (profile : Profile) (reason : String) :
    FillResponse :=
  ⟨createSuggestedMappings fields profile, .static, false, none, some reason⟩

/-- `LLMOrchestrator.fill`.  Returns `.error` exactly where the source
re-throws to its caller. -/
def orchestratorFill (cfg : OrchestratorConfig) (available : Bool) (llm : LLMOutcome)
    (validate : String → ValidationOutcome) (formSignature : FormSignature)
    (profile : Profile) (useCache : Bool) (σ : List StoredCacheEntry) :
    Except String FillResponse × List FlowEvent :=
  if !available then
    (.ok (staticFill formSignature.fields profile "API key not configured"), [])
  else
    match llm with
    | .throws msg =>
      (if cfg.fallbackToStatic then .ok (staticFill formSignature.fields profile msg)
       else .error msg, [.llmCall])
    | .errInvalidKey =>
      (.ok (staticFill formSignature.fields profile "Invalid API key"), [.llmCall])
    | .errRateLimited =>
      (.ok (staticFill formSignature.fields profile "Rate limited"), [.llmCall])
    | .errOtherCode msg =>
      (if cfg.fallbackToStatic then .ok (staticFill formSignature.fields profile msg)
       else .error msg, [.llmCall])
    | .ok content tokens =>
      match content with
      | none =>
        (if cfg.fallbackToStatic then
            .ok (staticFill formSignature.fields profile "Empty response from LLM")
         else .error "Empty response from LLM", [.llmCall])
      | some rawContent =>
        if rawContent == "" then
          (if cfg.fallbackToStatic then
              .ok (staticFill formSignature.fields profile "Empty response from LLM")
           else .error "Empty response from LLM", [.llmCall])
        else
          let validationResult := validate rawContent
          if !validationResult.valid then
            (if cfg.fallbackToStatic then
                .ok (staticFill formSignature.fields profile "LLM response validation failed")
             else .error "LLM response validation failed", [.llmCall])
          else
            let staticMappings := createSuggestedMappings formSignature.fields profile
            let mergedMappings := mergeWithStaticMappings validationResult.mappings staticMappings
            (.ok ⟨mergedMappings, if 0 < staticMappings.length then .hybrid else .llm,
                true, some tokens, none⟩, [.llmCall])

/-- The background fill-trigger resolution flow: static mappings, then the
unmapped non-password fields go to `LLMOrchestrator.fill` (with
`useCache: true`), whose failure is swallowed in favour of the static-only
result. -/
def fillFlow (currentForm : FormSignature) (profile : Profile) (available : Bool)
    (llm : LLMOutcome) (validate : String → ValidationOutcome)
    (σ : List StoredCacheEntry) : List FieldMapping × List FlowEvent :=
  let staticMappings := createSuggestedMappings currentForm.fields profile
  let mappedFieldIds := staticMappings.map (fun m => m.fieldSignature.id)
  let unmappedFields := currentForm.fields.filter
    (fun f => !(mappedFieldIds.contains f.id) && !(f.semanticClass == .password))
  if 0 < unmappedFields.length && available then
    let aiForm : FormSignature := { currentForm with fields := unmappedFields }
    match orchestratorFill DEFAULT_CONFIG available llm validate aiForm profile true σ with
    | (.ok resp, events) => (staticMappings ++ resp.mappings, events)
    | (.error _, events) => (staticMappings, events)
  else (staticMappings, [])

/-! ### EmbeddingService (hashText, cacheEmbedding, embedBatch)

The module-level `embeddingCache` is a JS `Map` from the 32-bit text hash
(rendered in base 36 by the source; since that rendering is injective on
integers the raw integer is used as the key) to vectors.  The remote call is
abstracted as a function from the call index within one `embedBatch`
invocation and the request batch to either a failure or a response.  Because
the cache is module state that survives a thrown exception, `embedBatch`
returns the final cache alongside the outcome. -/

def MAX_BATCH_SIZE : ℕ := 20
def MAX_CACHE_SIZE : ℕ := 500

abbrev EmbCache := List (ℤ × List ℚ)

/-- `EmbeddingService.hashText` (the base-36 rendering is dropped, see above). -/
def hashText (s : String) : ℤ := jsHashString s

/-- `embeddingCache.get` by hashed key. -/
def embLookup (c : EmbCache) (k : ℤ) : Option (List ℚ) :=
  (c.find? (fun p => p.1 == k)).map (fun p => p.2)

/-- `EmbeddingService.cacheEmbedding`: evict the oldest key when at capacity,
then `Map.set`. -/
def cacheEmbedding (c : EmbCache) (text : String) (embedding : List ℚ) : EmbCache :=
  let key := hashText text
  let c1 := if MAX_CACHE_SIZE ≤ c.length then
      match c with
      | [] => []
      | _ :: rest => rest
    else c
  if c1.any (fun p => p.1 == key) then c1.map (fun p => if p.1 == key then (key, embedding) else p)
  else c1 ++ [(key, embedding)]

/-- One response of the remote embedding endpoint. -/
structure EmbApiResponse where
  data : List (List ℚ)
  totalTokens : ℕ

/-- Structural worker for `chunksOf`; the fuel starts at the list length,
which bounds the number of slices for a positive chunk size. -/
def chunksOfFuel : ℕ → ℕ → List String → List (List String)
  | 0, _, _ => []
  | _ + 1, _, [] => []
  | _ + 1, 0, _ :: _ => []
  | fuel + 1, m + 1, x :: xs =>
    (x :: xs).take (m + 1) :: chunksOfFuel fuel (m + 1) ((x :: xs).drop (m + 1))

/-- `Array.prototype.slice` batching: `for (i = 0; i < n; i += MAX_BATCH_SIZE)`. -/
def chunksOf (n : ℕ) (l : List String) : List (List String) :=
  chunksOfFuel l.length n l

/-- The batch loop of `embedBatch`: one remote call per chunk; each returned
row is cached (when `useCache`) as soon as its response arrives.  On a failure
the exception propagates, keeping the cache mutations already performed.  The
source pairs `response.data[j]` with `batch[j]`, i.e. a zip. -/
def embedBatchGo (api : ℕ → List String → Except String EmbApiResponse) (useCache : Bool) :
    List (List String) → ℕ → List (String × List ℚ) → ℕ → EmbCache →
    EmbCache × Except String (List (String × List ℚ) × ℕ)
  | [], _, acc, tokens, cache => (cache, .ok (acc, tokens))
  | batch :: rest, i, acc, tokens, cache =>
    match api i batch with
    | .error e => (cache, .error e)
    | .ok resp =>
      let pairs := batch.zip resp.data
      let cache1 := if useCache then pairs.foldl (fun c p => cacheEmbedding c p.1 p.2) cache
        else cache
      embedBatchGo api useCache rest (i + 1) (acc ++ pairs) (tokens + resp.totalTokens) cache1

/-- The cache-scan phase of `embedBatch`: each text is either served from the
cache (into `results`, the first component) or queued (into `textsToEmbed`
and `textIndexMap`, the second and third components). -/
def embedScanStep (cache0 : EmbCache) (useCache : Bool)
    (st : List (String × List ℚ) × List String × List ℕ) (it : ℕ × String) :
    List (String × List ℚ) × List String × List ℕ :=
  if useCache then
    match embLookup cache0 (hashText it.2) with
    | some emb => (st.1 ++ [(it.2, emb)], st.2.1, st.2.2)
    | none => (st.1, st.2.1 ++ [it.2], st.2.2 ++ [it.1])
  else (st.1, st.2.1 ++ [it.2], st.2.2 ++ [it.1])

/-- `EmbeddingService.embedBatch`.  Returns the final module cache and either
the propagated failure or the embeddings in original order with the total
token count. -/
def embedBatch (api : ℕ → List String → Except String EmbApiResponse) (texts : List String)
    (useCache : Bool) (cache0 : EmbCache) :
    EmbCache × Except String (List (String × List ℚ) × ℕ) :=
  if texts.isEmpty then (cache0, .ok ([], 0))
  else
    let scanned := texts.enum.foldl (embedScanStep cache0 useCache) ([], [], [])
    let results := scanned.1
    let textsToEmbed := scanned.2.1
    let textIndexMap := scanned.2.2
    if textsToEmbed.isEmpty then (cache0, .ok (results, 0))
    else
      match embedBatchGo api useCache (chunksOf MAX_BATCH_SIZE textsToEmbed) 0 [] 0 cache0 with
      | (cacheF, .error e) => (cacheF, .error e)
      | (cacheF, .ok (batchResults, totalTokens)) =>
        let merged := texts.enum.foldl
          (fun (st : List (String × List ℚ) × ℕ × ℕ) it =>
            if textIndexMap.contains it.1 then
              (st.1 ++ ((batchResults.drop st.2.1).take 1), st.2.1 + 1, st.2.2)
            else
              (st.1 ++ ((results.drop st.2.2).take 1), st.2.1, st.2.2 + 1))
          ([], 0, 0)
        (cacheF, .ok (merged.1, totalTokens))

/-! ### RAGEngine.buildContext (src/background/ai/RAGEngine.ts) -/

inductive RagSourceType
  | learned_example | document | knowledge_base
deriving DecidableEq

/-- One search result fed to `buildContext` (similarity is only copied
through, so ℚ keeps the packer executable). -/
structure RagSearchResult where
  id : String
  sourceType : RagSourceType
  similarity : ℚ
  text : String
deriving DecidableEq

/-- One element of the `sources` output of `buildContext`. -/
structure RagSource where
  id : String
  type : RagSourceType
  similarity : ℚ
  text : String
deriving DecidableEq

def CHARS_PER_TOKEN : ℕ := 4

/-- `estimateTokens`: `Math.ceil(text.length / 4)`. -/
def estimateTokens (text : String) : ℕ := (text.length + CHARS_PER_TOKEN - 1) / CHARS_PER_TOKEN

/-- The loop of `buildContext`.  `total` is the running `totalTokens`; the
returned ℕ is the final `tokenEstimate` (which never counts a truncated
entry).  `maxTokens - total` is exact because the loop keeps
`total ≤ maxTokens`. -/
def buildContextGo (maxTokens : ℕ) : List RagSearchResult → ℕ →
    List String × List RagSource × ℕ
  | [], total => ([], [], total)
  | r :: rest, total =>
    let tokens := estimateTokens r.text
    if maxTokens < total + tokens then
      let remainingTokens := maxTokens - total
      if 50 < remainingTokens then
        let truncatedText := r.text.take (remainingTokens * CHARS_PER_TOKEN)
        ([truncatedText ++ "..."], [⟨r.id, r.sourceType, r.similarity, truncatedText⟩], total)
      else ([], [], total)
    else
      let res := buildContextGo maxTokens rest (total + tokens)
      (r.text :: res.1, ⟨r.id, r.sourceType, r.similarity, r.text⟩ :: res.2.1, res.2.2)

/-- `RAGEngine.buildContext`. -/
def buildContext (results : List RagSearchResult) (maxTokens : ℕ) :
    List String × List RagSource × ℕ :=
  buildContextGo maxTokens results 0

def DEFAULT_MAX_CONTEXT_TOKENS : ℕ := 1500

/-! ### VectorStore (src/shared/storage/VectorStore.ts)

Embedding coordinates are JS doubles computing square roots, modelled as ℝ. -/

structure VectorEntry where
  id : String
  profileId : String
  embedding : List ℝ
  sourceType : RagSourceType
  sourceId : String
  text : String

/-- `VectorStore.cosineSimilarity`: zero on a dimension mismatch, zero on a
zero magnitude, otherwise the normalized dot product. -/
noncomputable def cosineSimilarity (a b : List ℝ) : ℝ :=
  if a.length ≠ b.length then 0
  else
    let dotProduct := ((a.zip b).map (fun p => p.1 * p.2)).sum
    let normA := (a.map (fun x => x * x)).sum
    let normB := (b.map (fun x => x * x)).sum
    let magnitude := Real.sqrt normA * Real.sqrt normB
    if magnitude = 0 then 0 else dotProduct / magnitude

structure VectorSearchResult where
  entry : VectorEntry
  similarity : ℝ

/-- `VectorStore.search` on the profile's vector collection: score every
entry, filter by threshold, stable-sort descending (JS `sort` with comparator
`b.similarity - a.similarity`), and truncate to `topK`. -/
noncomputable def vectorSearch (vectors : List VectorEntry) (queryEmbedding : List ℝ)
    (topK : ℕ) (threshold : ℝ) : List VectorSearchResult :=
  if vectors.isEmpty then []
  else
    let results := vectors.map (fun v =>
      (⟨v, cosineSimilarity queryEmbedding v.embedding⟩ : VectorSearchResult))
    let filtered := results.filter (fun r => decide (threshold ≤ r.similarity))
    (filtered.mergeSort (fun a b => decide (b.similarity ≤ a.similarity))).take topK

/-! ### PromptBuilder.buildProfileContext (the Prompt Builder module)

The source iterates `Object.entries(profile.staticContext.fields)`.  Since
`fields` is an array, the entry keys are the decimal array indices. -/

/-- `PromptBuilder.buildProfileContext`. -/
def buildProfileContext (profile : Profile) : String :=
  let fieldEntries := profile.staticContext.fields.enum.filterMap (fun p =>
    if p.2.value == "" || p.2.isEncrypted then none
    else some (toString p.1 ++ ": " ++ p.2.value))
  let docEntries := profile.staticContext.documents.filterMap (fun d =>
    if d.content == "" then none
    else some ("[" ++ d.type ++ "] " ++ d.name ++ ": " ++ d.content.take 500 ++
      (if 500 < d.content.length then "..." else "")))
  String.intercalate "\n" (fieldEntries ++ docEntries)

/-! ### Spec-side packer for the claim about RAG context packing

Written from the (amended) claim's words, independently of `buildContext`'s
loop shape, for a refinement comparison: length of the maximal fitting
prefix, then a truncation of the first overflowing entry when strictly more
than 50 tokens of budget remain. -/

/-- Length of the maximal prefix of entries with the given token counts whose
running total stays within the budget. -/
def specGreedyLen (budget : ℕ) : List ℕ → ℕ → ℕ
  | [], _ => 0
  | t :: ts, acc => if acc + t ≤ budget then specGreedyLen budget ts (acc + t) + 1 else 0

/-- The claim's description of the packed context: whole entries while they
fit; at the first entry that would overflow, a truncation to the remaining
budget with an ellipsis marker exactly when more than 50 tokens remain; then
stop. -/
def specGreedyPack (results : List RagSearchResult) (budget : ℕ) : List String :=
  let toks := results.map (fun r => estimateTokens r.text)
  let k := specGreedyLen budget toks 0
  let whole := (results.take k).map (fun r => r.text)
  match results.drop k with
  | [] => whole
  | r :: _ =>
    let remaining := budget - (toks.take k).sum
    if 50 < remaining then whole ++ [r.text.take (remaining * CHARS_PER_TOKEN) ++ "..."]
    else whole

/-! ### Concrete scenario inputs used by counterexamples and witnesses -/

def emptyAttrs : FieldAttributes := ⟨none, none, none, none, none⟩

/-- A field whose normalized label is the denylisted substring `token`, with
the `unknown` semantic class. -/
def c1Field : FieldSignature := ⟨"f1", .text, "token", .unknown, emptyAttrs⟩

/-- A profile holding a credential-looking key `token`. -/
def c1Profile : Profile := ⟨"p1", "P", ⟨[⟨"token", "abc123", false⟩], []⟩⟩

/-- The mapping the exact-key fuzzy tier produces for `c1Field`/`c1Profile`. -/
def c1Mapping : FieldMapping := ⟨c1Field, "abc123", 0.95, .static⟩

def c2Form : FormSignature := ⟨"form2", "example.com", []⟩
def c2Profile : Profile := ⟨"p2", "P", ⟨[], []⟩⟩

def c3Field : FieldSignature := ⟨"f1", .textarea, "your message", .message, emptyAttrs⟩
def c3Form : FormSignature := ⟨"form1", "example.com", [c3Field]⟩
def c3Profile : Profile := ⟨"p1", "P", ⟨[], []⟩⟩

/-- A mapping sitting in the response cache for `c3Form`/`c3Profile`. -/
def c3CachedMapping : FieldMapping := ⟨c3Field, "hello from cache", 0.9, .cache⟩

/-- A cache state holding a fresh entry under exactly the key
`buildCacheKey c3Form "p1"`. -/
def c3CacheState : List StoredCacheEntry :=
  [⟨buildCacheKey c3Form "p1", ⟨[c3CachedMapping], 42, 1000, 0⟩, 1000,
    some (1000 + DEFAULT_TTL_MS)⟩]

def c3LlmMapping : FieldMapping := ⟨c3Field, "llm value", 0.9, .llm⟩

def c3Validate : String → ValidationOutcome := fun s =>
  if s == "resp" then ⟨true, [c3LlmMapping]⟩ else ⟨false, []⟩

def c4StaticMapping : FieldMapping := ⟨c1Field, "static value", 1, .static⟩
def c4LlmMapping : FieldMapping := ⟨c1Field, "llm value", 1, .llm⟩

def c5Profile : Profile :=
  ⟨"p5", "P", ⟨[⟨"firstName", "John", false⟩, ⟨"lastName", "Doe", false⟩], []⟩⟩

def c6Entry1 : RagSearchResult := ⟨"s1", .document, 0, String.mk (List.replicate 40 'a')⟩
def c6Entry2 : RagSearchResult := ⟨"s2", .document, 0, String.mk (List.replicate 400 'b')⟩

def c7Entry : VectorEntry := ⟨"v1", "p1", [1, 2], .document, "doc1", "some text"⟩

def c8Field : FieldSignature := ⟨"f9", .text, "zzz", .full_name, emptyAttrs⟩
def c8Profile : Profile :=
  ⟨"p8", "P", ⟨[⟨"firstName", "John", false⟩, ⟨"lastName", "Doe", false⟩], []⟩⟩

def c9Texts : List String :=
  ["a", "b", "c", "d", "e", "f", "g", "h", "i", "j", "k", "l", "m", "n", "o", "p", "q",
   "r", "s", "t", "u"]

/-- A remote embedding API whose first call succeeds and whose second call
fails. -/
def c9Api : ℕ → List String → Except String EmbApiResponse := fun i batch =>
  if i == 0 then .ok ⟨batch.map (fun _ => [1]), 5⟩ else .error "boom"

/-- A remote embedding API that always fails. -/
def c9FailApi : ℕ → List String → Except String EmbApiResponse := fun _ _ => .error "down"

def c10Form : FormSignature := ⟨"form10", "example.org", []⟩
def c10Value : CachedFillResponse := ⟨[], 3, 500, 4⟩
def c10Entry : StoredCacheEntry := ⟨buildCacheKey c10Form "p10", c10Value, 500, some 5000⟩

/-! ## Theorems settling the claims -/

/-- C1, counterexample.  The claim says no static-matching tier ever produces
a FieldMapping for a credential-indicating (denylisted) field.  The concrete
field `c1Field` has normalized label `token` (denylisted substring) but
semantic class `unknown`, and the exact-key fuzzy tier of
`mapFieldsToProfile` maps it to the profile entry `token`, value `abc123`;
`createSuggestedMappings` keeps that mapping. -/
theorem c1_denylisted_field_mapped :
    isFieldDenylisted c1Field = true ∧
    (mapFieldsToProfile [c1Field] c1Profile).map (fun m => m.fieldSignature.id) =
      [c1Field.id] ∧
    (mapFieldsToProfile [c1Field] c1Profile).map (fun m => m.value) = ["abc123"] ∧
    (createSuggestedMappings [c1Field] c1Profile).map (fun m => m.fieldSignature.id) =
      [c1Field.id] := by
  refine ⟨by decide, by decide, by decide, by decide⟩

/-- C5.  The Prompt Builder's profile context iterates
`Object.entries(profile.staticContext.fields)` where `fields` is an array, so
the emitted line keys are the decimal array indices, not the profile keys:
for a profile with fields `firstName: John`, `lastName: Doe` the context is
`0: John\n1: Doe` and the profile key `firstName` appears nowhere. -/
theorem c5_profile_context_uses_array_indices :
    buildProfileContext c5Profile = "0: John\n1: Doe" ∧
    strIncludes (buildProfileContext c5Profile) "firstName" = false := by
  refine ⟨by decide, by decide⟩

set_option maxRecDepth 100000 in
/-- C6, counterexample.  With budget 60 and a first entry of 10 tokens, the
second (overflowing) entry leaves exactly 50 tokens of budget — "at least 50"
in the claim's words — yet `buildContext` appends no truncated entry, because
the source requires strictly more than 50. -/
theorem c6_boundary_no_truncation :
    estimateTokens c6Entry1.text = 10 ∧
    50 ≤ 60 - estimateTokens c6Entry1.text ∧
    60 < estimateTokens c6Entry1.text + estimateTokens c6Entry2.text ∧
    (buildContext [c6Entry1, c6Entry2] 60).1 = [c6Entry1.text] := by
  refine ⟨by decide, by decide, by decide, by decide⟩

set_option maxRecDepth 100000 in
/-- C9, counterexample.  With 21 uncached texts the source issues two remote
calls; when the second fails the exception propagates, but the 20 embeddings
of the first (successful) call are already in the module cache, so the claim
that no embedding from the failed request sequence is left in the cache is
false. -/
theorem c9_earlier_batch_stays_cached :
    (embedBatch c9Api c9Texts true []).2 = .error "boom" ∧
    (embedBatch c9Api c9Texts true []).1.length = 20 := by
  refine ⟨rfl, by decide⟩

/-- C3.  The resolution flow never consults the response cache: with a fresh
cache entry stored under exactly the key of the request
(`buildCacheKey c3Form "p1"`), a fill still enters the remote-LLM stage,
returns the LLM mappings rather than the cached ones, emits no cache-read
event, and its result is independent of the cache state altogether. -/
theorem c3_cache_never_consulted :
    (storageFind c3CacheState (buildCacheKey c3Form "p1")).isSome = true ∧
    fillFlow c3Form c3Profile true (.ok (some "resp") 7) c3Validate c3CacheState =
      ([c3LlmMapping], [.llmCall]) ∧
    (∀ σ σ' : List StoredCacheEntry, ∀ form profile avail llm validate,
      fillFlow form profile avail llm validate σ = fillFlow form profile avail llm validate σ') := by
  refine ⟨by simp [storageFind, c3CacheState, List.find?], rfl, fun σ σ' form profile avail llm validate => rfl⟩
/-- C2.  With the default configuration (fallbackToStatic), for every
behaviour of the remote LLM/prompt stage in the claim's failure set -
exception, invalid-API-key, rate-limit, any other OpenRouter error code,
empty response, or a response the validator marks invalid -
`LLMOrchestrator.fill` does not throw: it returns a FillResponse whose
mappings are exactly `createSuggestedMappings`, with source static, llmUsed
false and a fallbackReason recorded. -/
theorem c2_fill_degrades_to_static
    (form : FormSignature) (profile : Profile) (validate : String → ValidationOutcome)
    (llm : LLMOutcome) (useCache : Bool) (σ : List StoredCacheEntry)
    (hfail : (∃ msg, llm = .throws msg) ∨ llm = .errInvalidKey ∨ llm = .errRateLimited ∨
      (∃ msg, llm = .errOtherCode msg) ∨ (∃ t, llm = .ok none t) ∨
      (∃ t, llm = .ok (some "") t) ∨
      (∃ c t, llm = .ok (some c) t ∧ c ≠ "" ∧ (validate c).valid = false)) :
    ∃ reason, orchestratorFill DEFAULT_CONFIG true llm validate form profile useCache σ =
      (.ok ⟨createSuggestedMappings form.fields profile, .static, false, none, some reason⟩,
       [.llmCall]) := by
  rcases hfail with ⟨msg, rfl⟩ | rfl | rfl | ⟨msg, rfl⟩ | ⟨t, rfl⟩ | ⟨t, rfl⟩ | ⟨c, t, rfl, hc, hv⟩
  · exact ⟨msg, rfl⟩
  · exact ⟨"Invalid API key", rfl⟩
  · exact ⟨"Rate limited", rfl⟩
  · exact ⟨msg, rfl⟩
  · exact ⟨"Empty response from LLM", rfl⟩
  · exact ⟨"Empty response from LLM", rfl⟩
  · refine ⟨"LLM response validation failed", ?_⟩
    simp only [orchestratorFill, DEFAULT_CONFIG, staticFill, Bool.not_true, Bool.false_eq_true,
      if_false]
    rw [if_neg (by simp [hc]), if_pos (by simp [hv]), if_pos trivial]

theorem c2_witness :
    ∃ reason,
      orchestratorFill DEFAULT_CONFIG true .errRateLimited (fun _ => ⟨false, []⟩) c2Form
        c2Profile true [] =
      (.ok ⟨createSuggestedMappings c2Form.fields c2Profile, .static, false, none, some reason⟩,
       [.llmCall]) :=
  c2_fill_degrades_to_static c2Form c2Profile (fun _ => ⟨false, []⟩) .errRateLimited true []
    (Or.inr (Or.inr (Or.inl rfl)))

/-- C10.  On a non-expired hit, `CacheService.get` returns the entry with its
hit counter incremented and re-persists it keyed under the same cache key
with `expiresAt = now + DEFAULT_TTL_MS`: every hit slides the expiration
forward by the full TTL (604800000 ms = 7 days) from the hit time,
independently of the entry's original creation time. -/
theorem c10_hit_slides_ttl
    (σ : List StoredCacheEntry) (now : ℕ) (fs : FormSignature) (pid : String)
    (e : StoredCacheEntry)
    (hfind : storageFind σ (buildCacheKey fs pid) = some e)
    (hfresh : ∀ x, e.expiresAt = some x → ¬ x < now) :
    cacheServiceGet DEFAULT_TTL_MS σ now fs pid =
      (some { e.value with hitCount := e.value.hitCount + 1 },
       storagePut σ ⟨buildCacheKey fs pid, { e.value with hitCount := e.value.hitCount + 1 },
         now, some (now + DEFAULT_TTL_MS)⟩) ∧
    DEFAULT_TTL_MS = 604800000 := by
  constructor
  · simp only [cacheServiceGet, storageGetCache, hfind]
    have hset : storageSetCache σ now (buildCacheKey fs pid)
        { e.value with hitCount := e.value.hitCount + 1 } DEFAULT_TTL_MS =
        storagePut σ ⟨buildCacheKey fs pid, { e.value with hitCount := e.value.hitCount + 1 },
          now, some (now + DEFAULT_TTL_MS)⟩ := by
      unfold storageSetCache
      rw [if_neg (by decide)]
    cases hexp : e.expiresAt with
    | none => simp [hset]
    | some x => simp [if_neg (hfresh x hexp), hset]
  · rfl

theorem c10_witness :
    cacheServiceGet DEFAULT_TTL_MS [c10Entry] 2000 c10Form "p10" =
      (some { c10Value with hitCount := c10Value.hitCount + 1 },
       storagePut [c10Entry] ⟨buildCacheKey c10Form "p10",
         { c10Value with hitCount := c10Value.hitCount + 1 }, 2000,
         some (2000 + DEFAULT_TTL_MS)⟩) ∧
    DEFAULT_TTL_MS = 604800000 :=
  c10_hit_slides_ttl [c10Entry] 2000 c10Form "p10" c10Entry
    (by simp [storageFind, c10Entry, List.find?])
    (fun x hx => by
      simp only [c10Entry] at hx
      cases hx
      decide)

theorem embedScanStep_foldl_allMiss (cache0 : EmbCache) (l : List (ℕ × String))
    (h : ∀ p ∈ l, embLookup cache0 (hashText p.2) = none) :
    ∀ a b c, l.foldl (embedScanStep cache0 true) (a, b, c) =
      (a, b ++ l.map (fun p => p.2), c ++ l.map (fun p => p.1)) := by
  induction l with
  | nil => intro a b c; simp
  | cons p rest ih =>
    intro a b c
    have hp := h p (List.mem_cons_self p rest)
    have hrest : ∀ q ∈ rest, embLookup cache0 (hashText q.2) = none :=
      fun q hq => h q (List.mem_cons_of_mem p hq)
    simp only [List.foldl_cons, embedScanStep, hp, List.map_cons]
    rw [ih hrest]
    simp

theorem chunksOf_eq_single (l : List String) (hne : l ≠ []) (hlen : l.length ≤ 20) :
    chunksOf 20 l = [l] := by
  cases l with
  | nil => exact absurd rfl hne
  | cons x xs =>
    unfold chunksOf
    simp only [List.length_cons]
    unfold chunksOfFuel
    rw [List.take_of_length_le (by simpa using hlen), List.drop_eq_nil_of_le (by simpa using hlen)]
    cases h : xs.length <;> rfl

/-- C9, amended.  When all texts are uncached and fit in a single batch (at
most MAX_BATCH_SIZE = 20), a failing remote call propagates as the error, no
partial vector list is returned, and the text-to-vector cache is left exactly
as it was.  (The counterexample shows that with more than one batch, the
earlier successful calls' embeddings do stay cached.) -/
theorem c9_single_call_failure_leaves_cache (texts : List String) (cache0 : EmbCache)
    (e : String) (api : ℕ → List String → Except String EmbApiResponse)
    (hmiss : ∀ t ∈ texts, embLookup cache0 (hashText t) = none)
    (hlen : texts.length ≤ 20) (hne : texts ≠ [])
    (hapi : api 0 texts = .error e) :
    embedBatch api texts true cache0 = (cache0, .error e) := by
  unfold embedBatch
  rw [if_neg (by simpa using hne)]
  have hmiss2 : ∀ p ∈ texts.enum, embLookup cache0 (hashText p.2) = none := by
    intro p hp
    exact hmiss p.2 (by
      have := List.enum_map_snd texts
      have hm : p.2 ∈ texts.enum.map Prod.snd := List.mem_map_of_mem Prod.snd hp
      rwa [this] at hm)
  rw [embedScanStep_foldl_allMiss cache0 texts.enum hmiss2 [] [] []]
  simp only [List.nil_append, List.enum_map_snd]
  rw [if_neg (by simpa using hne)]
  rw [show MAX_BATCH_SIZE = 20 from rfl, chunksOf_eq_single texts hne hlen]
  unfold embedBatchGo
  rw [hapi]

theorem buildContextGo_eq_spec (b : ℕ) (l : List RagSearchResult) :
    ∀ total, (buildContextGo b l total).1 =
      (let toks := l.map (fun r => estimateTokens r.text)
       let k := specGreedyLen b toks total
       let whole := (l.take k).map (fun r => r.text)
       match l.drop k with
       | [] => whole
       | r :: _ =>
         let remaining := b - (total + (toks.take k).sum)
         if 50 < remaining then whole ++ [r.text.take (remaining * CHARS_PER_TOKEN) ++ "..."]
         else whole) := by
  induction l with
  | nil => intro total; simp [buildContextGo, specGreedyLen]
  | cons r rest ih =>
    intro total
    simp only [buildContextGo, List.map_cons, specGreedyLen]
    by_cases hfit : total + estimateTokens r.text ≤ b
    · rw [if_neg (by omega), if_pos hfit]
      simp only [List.take_succ_cons, List.drop_succ_cons, List.map_cons, List.sum_cons]
      rw [ih (total + estimateTokens r.text)]
      have harith : total + estimateTokens r.text +
          ((rest.map (fun r => estimateTokens r.text)).take (specGreedyLen b
            (rest.map (fun r => estimateTokens r.text)) (total + estimateTokens r.text))).sum =
          total + (estimateTokens r.text +
          ((rest.map (fun r => estimateTokens r.text)).take (specGreedyLen b
            (rest.map (fun r => estimateTokens r.text)) (total + estimateTokens r.text))).sum) := by
        omega
      cases hdrop : rest.drop (specGreedyLen b (rest.map (fun r => estimateTokens r.text))
          (total + estimateTokens r.text)) with
      | nil => simp [hdrop]
      | cons q qs =>
        simp only [hdrop, harith]
        split <;> simp
    · rw [if_pos (by omega), if_neg hfit]
      simp only [List.take_zero, List.drop_zero, List.map_nil, List.take_nil, List.sum_nil,
        Nat.add_zero, List.nil_append]
      split <;> rfl

/-- C6, amended.  For every result list and token budget, the packed context
equals the spec-side greedy packer: whole entries in order while they fit;
at the first overflowing entry, a truncation to the remaining budget with an
ellipsis marker if and only if STRICTLY MORE than 50 tokens remain; then
stop. -/
theorem c6_amended_pack (results : List RagSearchResult) (maxTokens : ℕ) :
    (buildContext results maxTokens).1 = specGreedyPack results maxTokens := by
  unfold buildContext specGreedyPack
  rw [buildContextGo_eq_spec maxTokens results 0]
  simp only [Nat.zero_add]

/-- C8.  For a profile whose first field keyed `firstName` has a non-empty
value, likewise `lastName`, and with no `fullName` key, and a field list
containing a full_name-class field but no first_name- or last_name-class
field, `createSuggestedMappings` adds a mapping for the first full_name
field valued `firstName ++ " " ++ lastName` at confidence 0.9 and source
static, provided that field was not already mapped. -/
theorem c8_full_name_join
    (fields : List FieldSignature) (profile : Profile) (cf cl : ContextField)
    (fld : FieldSignature)
    (h1 : findProfileField profile.staticContext.fields "firstName" = some cf)
    (h1v : cf.value ≠ "")
    (h2 : findProfileField profile.staticContext.fields "lastName" = some cl)
    (h2v : cl.value ≠ "")
    (h3 : findProfileField profile.staticContext.fields "fullName" = none)
    (h4 : fields.find? (fun f => f.semanticClass == .full_name) = some fld)
    (h5 : ∀ f ∈ fields, f.semanticClass ≠ .first_name ∧ f.semanticClass ≠ .last_name)
    (h6 : (mapFieldsToProfile fields profile).any
        (fun m => m.fieldSignature.id == fld.id) = false) :
    (⟨fld, cf.value ++ " " ++ cl.value, 0.9, .static⟩ : FieldMapping) ∈
      createSuggestedMappings fields profile := by
  have hFull : fields.any (fun f => f.semanticClass == .full_name) = true := by
    have h4p := List.find?_some h4
    rw [List.any_eq_true]
    exact ⟨fld, List.mem_of_find?_eq_some h4, h4p⟩
  have hFirst : fields.any (fun f => f.semanticClass == .first_name) = false := by
    rw [List.any_eq_false]
    intro f hf
    simp [(h5 f hf).1]
  have hLast : fields.any (fun f => f.semanticClass == .last_name) = false := by
    rw [List.any_eq_false]
    intro f hf
    simp [(h5 f hf).2]
  have hFn : jsOrStr ((findProfileField profile.staticContext.fields "firstName").map
      (fun f => f.value)) ((findProfileField profile.staticContext.fields "first_name").map
      (fun f => f.value)) = some cf.value := by
    rw [h1]
    simp [jsOrStr, h1v]
  have hLn : jsOrStr ((findProfileField profile.staticContext.fields "lastName").map
      (fun f => f.value)) ((findProfileField profile.staticContext.fields "last_name").map
      (fun f => f.value)) = some cl.value := by
    rw [h2]
    simp [jsOrStr, h2v]
  have hsplit : addSplitNameMappings fields profile.staticContext.fields
      (mapFieldsToProfile fields profile) = mapFieldsToProfile fields profile := by
    simp [addSplitNameMappings, hFull]
  unfold createSuggestedMappings
  rw [hsplit]
  simp only [addJoinNameMapping, hFull, hFirst, hLast, hFn, hLn, h3, h4, Bool.not_false,
    Bool.and_self, Bool.true_and, Bool.and_true, Option.isNone_none, if_true]
  rw [if_pos (by simp [optTruthy, h1v, h2v])]
  simp only [pushIfAbsent, h6, Bool.false_eq_true, if_false, orEmpty]
  exact List.mem_append_right _ (List.mem_singleton.mpr rfl)

theorem semanticTierMatch_sig {f : FieldSignature} {pfs : List ContextField} {m : FieldMapping}
    (h : semanticTierMatch f pfs = some m) : m.fieldSignature = f := by
  obtain ⟨k, hk, hfk⟩ := List.exists_of_findSome?_eq_some h
  split at hfk
  · split at hfk
    · exact Option.noConfusion hfk
    · cases hfk
      rfl
  · exact Option.noConfusion hfk

theorem tryFuzzyMatch_sig {f : FieldSignature} {pfs : List ContextField} {m : FieldMapping}
    (h : tryFuzzyMatch f pfs = some m) : m.fieldSignature = f := by
  simp only [tryFuzzyMatch] at h
  split at h
  · cases h
    rfl
  · split at h
    · rename_i m1 heq
      cases h
      obtain ⟨pat, hpat_mem, hpat⟩ := List.exists_of_findSome?_eq_some heq
      split at hpat
      · obtain ⟨key, hkey_mem, hkey⟩ := List.exists_of_findSome?_eq_some hpat
        split at hkey
        · split at hkey
          · exact Option.noConfusion hkey
          · cases hkey
            rfl
        · exact Option.noConfusion hkey
      · exact Option.noConfusion hpat
    · split at h
      · cases h
        rfl
      · exact Option.noConfusion h

theorem mapFieldOne_sig {f : FieldSignature} {pfs : List ContextField} {m : FieldMapping}
    (h : mapFieldOne f pfs = some m) : m.fieldSignature = f := by
  simp only [mapFieldOne] at h
  split at h
  · rename_i m1 heq
    cases h
    split at heq
    · exact Option.noConfusion heq
    · exact semanticTierMatch_sig heq
  · exact tryFuzzyMatch_sig h

theorem mapFieldsToProfile_no_password (fields : List FieldSignature) (profile : Profile) :
    ∀ m ∈ mapFieldsToProfile fields profile,
      m.fieldSignature.semanticClass ≠ SemanticClass.password := by
  intro m hm
  rw [mapFieldsToProfile, List.mem_filterMap] at hm
  obtain ⟨f, hf, hfm⟩ := hm
  split at hfm
  · exact Option.noConfusion hfm
  · rename_i hcls
    rw [mapFieldOne_sig hfm]
    simpa using hcls

theorem pushIfAbsent_mem {ms : List FieldMapping} {f : FieldSignature} {v : String}
    {x : FieldMapping} (h : x ∈ pushIfAbsent ms f v) :
    x ∈ ms ∨ x = (⟨f, v, 0.9, .static⟩ : FieldMapping) := by
  unfold pushIfAbsent at h
  split at h
  · exact Or.inl h
  · rcases List.mem_append.mp h with h1 | h1
    · exact Or.inl h1
    · exact Or.inr (List.mem_singleton.mp h1)

theorem addSplitNameMappings_no_password (fields : List FieldSignature)
    (pfs : List ContextField) (ms : List FieldMapping)
    (hms : ∀ x ∈ ms, x.fieldSignature.semanticClass ≠ SemanticClass.password) :
    ∀ m ∈ addSplitNameMappings fields pfs ms,
      m.fieldSignature.semanticClass ≠ SemanticClass.password := by
  intro m hm
  simp only [addSplitNameMappings] at hm
  split at hm
  · split at hm
    · split at hm
      · split at hm
        · rename_i lnf hlast
          rcases pushIfAbsent_mem hm with hm1 | hm1
          · split at hm1
            · rename_i fnf hfirst
              rcases pushIfAbsent_mem hm1 with hm2 | hm2
              · exact hms m hm2
              · have hcls := List.find?_some hfirst
                simp only [beq_iff_eq] at hcls
                rw [hm2]
                simp [hcls]
            · exact hms m hm1
          · have hcls := List.find?_some hlast
            simp only [beq_iff_eq] at hcls
            rw [hm1]
            simp [hcls]
        · split at hm
          · rename_i fnf hfirst
            rcases pushIfAbsent_mem hm with hm2 | hm2
            · exact hms m hm2
            · have hcls := List.find?_some hfirst
              simp only [beq_iff_eq] at hcls
              rw [hm2]
              simp [hcls]
          · exact hms m hm
      · exact hms m hm
    · exact hms m hm
  · exact hms m hm

theorem addJoinNameMapping_no_password (fields : List FieldSignature)
    (pfs : List ContextField) (ms : List FieldMapping)
    (hms : ∀ x ∈ ms, x.fieldSignature.semanticClass ≠ SemanticClass.password) :
    ∀ m ∈ addJoinNameMapping fields pfs ms,
      m.fieldSignature.semanticClass ≠ SemanticClass.password := by
  intro m hm
  simp only [addJoinNameMapping] at hm
  split at hm
  · split at hm
    · split at hm
      · rename_i fnf hfull
        rcases pushIfAbsent_mem hm with hm1 | hm1
        · exact hms m hm1
        · have hcls := List.find?_some hfull
          simp only [beq_iff_eq] at hcls
          rw [hm1]
          simp [hcls]
      · exact hms m hm
    · exact hms m hm
  · exact hms m hm

/-- C1, amended.  The static tiers never map a field whose semantic class is
`password`; that is the only denylist-related exclusion the static matcher
makes (other credential-indicating fields can be statically mapped, as the
counterexample shows; denylist enforcement happens in prompt construction,
response validation and fill execution). -/
theorem c1_amended_no_password_class_mapping :
    ∀ (fields : List FieldSignature) (profile : Profile),
      ∀ m ∈ createSuggestedMappings fields profile,
        m.fieldSignature.semanticClass ≠ SemanticClass.password := by
  intro fields profile
  exact addJoinNameMapping_no_password fields profile.staticContext.fields _
    (addSplitNameMappings_no_password fields profile.staticContext.fields _
      (mapFieldsToProfile_no_password fields profile))

theorem mapSet_keys (m : List (String × FieldMapping)) (k : String) (v : FieldMapping) :
    (mapSet m k v).map Prod.fst =
      if m.any (fun p => p.1 == k) then m.map Prod.fst else m.map Prod.fst ++ [k] := by
  unfold mapSet
  split
  · rw [List.map_map]
    refine List.map_congr_left ?_
    intro p hp
    by_cases hpk : p.1 == k
    · simp only [Function.comp_apply, if_pos hpk]
      exact (beq_iff_eq.mp hpk).symm
    · simp only [Function.comp_apply, if_neg hpk]
  · simp

theorem find?_mapReplace_self (k : String) (v : FieldMapping) :
    ∀ ps : List (String × FieldMapping), ps.any (fun p => p.1 == k) = true →
      List.find? (fun p => p.1 == k) (ps.map (fun p => if p.1 == k then (k, v) else p)) =
        some (k, v) := by
  intro ps
  induction ps with
  | nil => simp
  | cons p ps ih =>
    intro hany
    by_cases hpk : (p.1 == k) = true
    · simp only [List.map_cons, if_pos hpk, List.find?_cons, beq_self_eq_true]
    · have hpkf := Bool.eq_false_iff.mpr hpk
      rw [List.any_cons, hpkf, Bool.false_or] at hany
      simp only [List.map_cons, List.find?_cons, hpkf, Bool.false_eq_true, if_false]
      exact ih hany

theorem find?_mapReplace_other (k i : String) (v : FieldMapping) (hik : i ≠ k) :
    ∀ ps : List (String × FieldMapping),
      List.find? (fun p => p.1 == i) (ps.map (fun p => if p.1 == k then (k, v) else p)) =
        List.find? (fun p => p.1 == i) ps := by
  intro ps
  induction ps with
  | nil => rfl
  | cons p ps ih =>
    by_cases hpk : (p.1 == k) = true
    · have h1 : ((k : String) == i) = false := by
        rw [beq_eq_false_iff_ne]
        exact fun h => hik h.symm
      have h2 : (p.1 == i) = false := by
        rw [beq_eq_false_iff_ne, beq_iff_eq.mp hpk]
        exact fun h => hik h.symm
      simp only [List.map_cons, if_pos hpk, List.find?_cons, h1, h2]
      exact ih
    · simp only [List.map_cons, if_neg hpk, List.find?_cons]
      cases hpi : (p.1 == i)
      · simp only [hpi]
        exact ih
      · simp only [hpi]

theorem mapLookup_mapSet_self (m : List (String × FieldMapping)) (k : String)
    (v : FieldMapping) : mapLookup (mapSet m k v) k = some v := by
  unfold mapLookup mapSet
  split
  · rename_i hany
    rw [find?_mapReplace_self k v m hany]
    rfl
  · rename_i hany
    have hnone : m.find? (fun p => p.1 == k) = none := by
      rw [List.find?_eq_none]
      intro p hp hpk
      exact hany (List.any_eq_true.mpr ⟨p, hp, hpk⟩)
    rw [List.find?_append, hnone]
    simp [List.find?]

theorem mapLookup_mapSet_other (m : List (String × FieldMapping)) (k : String)
    (v : FieldMapping) (i : String) (hik : i ≠ k) :
    mapLookup (mapSet m k v) i = mapLookup m i := by
  unfold mapLookup mapSet
  split
  · rw [find?_mapReplace_other k i v hik m]
  · rw [List.find?_append]
    have hsingle : List.find? (fun p => p.1 == i) [(k, v)] = none := by
      have h1 : ((k : String) == i) = false := by
        rw [beq_eq_false_iff_ne]
        exact fun h => hik h.symm
      simp [List.find?, h1]
    rw [hsingle]
    cases m.find? (fun p => p.1 == i) <;> rfl

theorem foldl_mergeSetStatic_fresh :
    ∀ (l : List FieldMapping) (m : List (String × FieldMapping)),
      (l.map (fun mp => mp.fieldSignature.id)).Nodup →
      (∀ mp ∈ l, m.any (fun p => p.1 == mp.fieldSignature.id) = false) →
      l.foldl mergeSetStatic m = m ++ l.map (fun mp => (mp.fieldSignature.id, mp)) := by
  intro l
  induction l with
  | nil => intro m _ _; simp
  | cons mp rest ih =>
    intro m hnd hfresh
    simp only [List.foldl_cons, List.map_cons]
    have hm : mergeSetStatic m mp = m ++ [(mp.fieldSignature.id, mp)] := by
      unfold mergeSetStatic mapSet
      simp only [hfresh mp (List.mem_cons_self mp rest), Bool.false_eq_true, if_false]
    rw [hm, ih (m ++ [(mp.fieldSignature.id, mp)]) (List.nodup_cons.mp hnd).2 ?_]
    · simp
    · intro mp' hmp'
      rw [List.any_append]
      have h1 : m.any (fun p => p.1 == mp'.fieldSignature.id) = false :=
        hfresh mp' (List.mem_cons_of_mem mp hmp')
      have h2 : (mp.fieldSignature.id == mp'.fieldSignature.id) = false := by
        rw [beq_eq_false_iff_ne]
        intro heq
        have hnotmem := (List.nodup_cons.mp hnd).1
        have hmem2 : mp.fieldSignature.id ∈ rest.map (fun mp => mp.fieldSignature.id) := by
          rw [heq]
          exact List.mem_map_of_mem _ hmp'
        exact hnotmem hmem2
      simp [h1, h2]

theorem foldl_mergeStepLlm_lookup :
    ∀ (l : List FieldMapping) (m : List (String × FieldMapping)),
      (l.map (fun mp => mp.fieldSignature.id)).Nodup →
      ∀ i, mapLookup (l.foldl mergeStepLlm m) i =
        match l.find? (fun mp => mp.fieldSignature.id == i) with
        | some ml =>
          match mapLookup m i with
          | some ex => if ex.confidence < ml.confidence then some ml else some ex
          | none => some ml
        | none => mapLookup m i := by
  intro l
  induction l with
  | nil => intro m _ i; simp
  | cons mp rest ih =>
    intro m hnd i
    simp only [List.foldl_cons, List.find?_cons]
    by_cases hiid : (mp.fieldSignature.id == i) = true
    · have hieq : mp.fieldSignature.id = i := beq_iff_eq.mp hiid
      have hrest_none : rest.find? (fun x => x.fieldSignature.id == i) = none := by
        rw [List.find?_eq_none]
        intro x hx hxk
        have hmem : i ∈ rest.map (fun mp => mp.fieldSignature.id) := by
          rw [← beq_iff_eq.mp hxk]
          exact List.mem_map_of_mem _ hx
        have hnotmem := (List.nodup_cons.mp hnd).1
        have hmem2 : mp.fieldSignature.id ∈ rest.map (fun mp => mp.fieldSignature.id) := by
          rw [hieq]
          exact hmem
        exact hnotmem hmem2
      rw [ih (mergeStepLlm m mp) (List.nodup_cons.mp hnd).2 i, hrest_none]
      simp only [hiid]
      unfold mergeStepLlm
      rw [hieq]
      cases hml : mapLookup m i with
      | some ex =>
        simp only [hml]
        by_cases hconf : ex.confidence < mp.confidence
        · rw [if_pos hconf, if_pos hconf]
          exact mapLookup_mapSet_self m i mp
        · rw [if_neg hconf, if_neg hconf]
          exact hml
      | none =>
        simp only [hml]
        exact mapLookup_mapSet_self m i mp
    · have hneq : i ≠ mp.fieldSignature.id := fun h => hiid (beq_iff_eq.mpr h.symm)
      have hstep : mapLookup (mergeStepLlm m mp) i = mapLookup m i := by
        unfold mergeStepLlm
        cases hml : mapLookup m mp.fieldSignature.id with
        | some ex =>
          by_cases hconf : ex.confidence < mp.confidence
          · simp only [hml, if_pos hconf]
            exact mapLookup_mapSet_other m _ mp i hneq
          · simp only [hml, if_neg hconf]
        | none =>
          simp only [hml]
          exact mapLookup_mapSet_other m _ mp i hneq
      rw [ih (mergeStepLlm m mp) (List.nodup_cons.mp hnd).2 i, hstep]
      have hf := Bool.eq_false_iff.mpr hiid
      simp only [hf]

theorem mapSet_invariant {m : List (String × FieldMapping)} {k : String} {v : FieldMapping}
    (h : ∀ p ∈ m, p.2.fieldSignature.id = p.1) (hv : v.fieldSignature.id = k) :
    ∀ p ∈ mapSet m k v, p.2.fieldSignature.id = p.1 := by
  intro p hp
  unfold mapSet at hp
  split at hp
  · obtain ⟨q, hq, hqp⟩ := List.mem_map.mp hp
    by_cases hqk : (q.1 == k) = true
    · rw [if_pos hqk] at hqp
      rw [← hqp]
      exact hv
    · rw [if_neg hqk] at hqp
      rw [← hqp]
      exact h q hq
  · rcases List.mem_append.mp hp with h1 | h1
    · exact h p h1
    · rw [List.mem_singleton.mp h1]
      exact hv

theorem mergeStepLlm_invariant {m : List (String × FieldMapping)} {mp : FieldMapping}
    (h : ∀ p ∈ m, p.2.fieldSignature.id = p.1) :
    ∀ p ∈ mergeStepLlm m mp, p.2.fieldSignature.id = p.1 := by
  unfold mergeStepLlm
  cases hml : mapLookup m mp.fieldSignature.id with
  | some ex =>
    simp only [hml]
    by_cases hconf : ex.confidence < mp.confidence
    · rw [if_pos hconf]
      exact mapSet_invariant h rfl
    · rw [if_neg hconf]
      exact h
  | none =>
    simp only [hml]
    exact mapSet_invariant h rfl

theorem foldl_mergeStepLlm_invariant :
    ∀ (l : List FieldMapping) (m : List (String × FieldMapping)),
      (∀ p ∈ m, p.2.fieldSignature.id = p.1) →
      ∀ p ∈ l.foldl mergeStepLlm m, p.2.fieldSignature.id = p.1 := by
  intro l
  induction l with
  | nil => intro m h; exact h
  | cons mp rest ih =>
    intro m h
    simp only [List.foldl_cons]
    exact ih (mergeStepLlm m mp) (mergeStepLlm_invariant h)

theorem mapSet_keys_nodup {m : List (String × FieldMapping)} {k : String} {v : FieldMapping}
    (h : (m.map Prod.fst).Nodup) : ((mapSet m k v).map Prod.fst).Nodup := by
  rw [mapSet_keys]
  split
  · exact h
  · rename_i hany
    refine List.Nodup.append h (List.nodup_singleton k) ?_
    intro a ha hak
    rw [List.mem_singleton.mp hak] at ha
    obtain ⟨p, hp, hpk⟩ := List.mem_map.mp ha
    exact hany (List.any_eq_true.mpr ⟨p, hp, beq_iff_eq.mpr hpk⟩)

theorem mergeStepLlm_keys_nodup {m : List (String × FieldMapping)} {mp : FieldMapping}
    (h : (m.map Prod.fst).Nodup) : ((mergeStepLlm m mp).map Prod.fst).Nodup := by
  unfold mergeStepLlm
  cases hml : mapLookup m mp.fieldSignature.id with
  | some ex =>
    simp only [hml]
    by_cases hconf : ex.confidence < mp.confidence
    · rw [if_pos hconf]
      exact mapSet_keys_nodup h
    · rw [if_neg hconf]
      exact h
  | none =>
    simp only [hml]
    exact mapSet_keys_nodup h

theorem foldl_mergeStepLlm_keys_nodup :
    ∀ (l : List FieldMapping) (m : List (String × FieldMapping)),
      (m.map Prod.fst).Nodup → ((l.foldl mergeStepLlm m).map Prod.fst).Nodup := by
  intro l
  induction l with
  | nil => intro m h; exact h
  | cons mp rest ih =>
    intro m h
    simp only [List.foldl_cons]
    exact ih (mergeStepLlm m mp) (mergeStepLlm_keys_nodup h)

theorem countP_fst_of_keys_nodup (i : String) :
    ∀ m : List (String × FieldMapping), (m.map Prod.fst).Nodup →
      m.countP (fun p => p.1 == i) = if i ∈ m.map Prod.fst then 1 else 0 := by
  intro m
  induction m with
  | nil => intro h; simp
  | cons p ps ih =>
    intro h
    rw [List.map_cons, List.nodup_cons] at h
    rw [List.countP_cons, List.map_cons]
    by_cases hpi : (p.1 == i) = true
    · have hpieq : p.1 = i := beq_iff_eq.mp hpi
      have hzero : ps.countP (fun q => q.1 == i) = 0 := by
        rw [List.countP_eq_zero]
        intro q hq hqk
        have hmemc : p.1 ∈ ps.map Prod.fst := by
          rw [hpieq, ← beq_iff_eq.mp hqk]
          exact List.mem_map_of_mem _ hq
        exact h.1 hmemc
      rw [hzero, if_pos hpi, if_pos (List.mem_cons.mpr (Or.inl hpieq.symm))]
    · have hf := Bool.eq_false_iff.mpr hpi
      rw [hf]
      simp only [Bool.false_eq_true, if_false, Nat.add_zero]
      rw [ih h.2]
      have hne : i ≠ p.1 := fun hh => hpi (beq_iff_eq.mpr hh.symm)
      by_cases hmem : i ∈ ps.map Prod.fst
      · rw [if_pos hmem, if_pos (List.mem_cons.mpr (Or.inr hmem))]
      · rw [if_neg hmem, if_neg (by
          intro hcon
          rcases List.mem_cons.mp hcon with hh | hh
          · exact hne hh
          · exact hmem hh)]

theorem mapLookup_mem {m : List (String × FieldMapping)} {i : String} {x : FieldMapping}
    (h : mapLookup m i = some x) : x ∈ m.map (fun p => p.2) := by
  unfold mapLookup at h
  cases hf : m.find? (fun p => p.1 == i) with
  | none => rw [hf] at h; exact Option.noConfusion h
  | some p =>
    rw [hf] at h
    have hx : p.2 = x := by simpa using h
    rw [← hx]
    exact List.mem_map_of_mem _ (List.mem_of_find?_eq_some hf)

theorem mapLookup_eq_none_iff {m : List (String × FieldMapping)} {i : String} :
    mapLookup m i = none ↔ i ∉ m.map Prod.fst := by
  unfold mapLookup
  constructor
  · intro h hmem
    obtain ⟨p, hp, hpk⟩ := List.mem_map.mp hmem
    cases hf : m.find? (fun p => p.1 == i) with
    | none =>
      rw [List.find?_eq_none] at hf
      exact hf p hp (beq_iff_eq.mpr hpk)
    | some q => rw [hf] at h; exact Option.noConfusion h
  · intro hmem
    cases hf : m.find? (fun p => p.1 == i) with
    | none => rfl
    | some q =>
      have hq := List.find?_some hf
      have hqm := List.mem_of_find?_eq_some hf
      exact absurd (by
        rw [← beq_iff_eq.mp hq]
        exact List.mem_map_of_mem _ hqm) hmem

theorem mapLookup_pairs (l : List FieldMapping) (i : String) :
    mapLookup (l.map (fun mp => (mp.fieldSignature.id, mp))) i =
      l.find? (fun mp => mp.fieldSignature.id == i) := by
  induction l with
  | nil => rfl
  | cons mp rest ih =>
    unfold mapLookup
    simp only [List.map_cons, List.find?_cons]
    cases hid : (mp.fieldSignature.id == i)
    · simp only [hid]
      exact ih
    · simp only [hid]
      rfl

theorem find?_id_of_nodup {l : List FieldMapping}
    (h : (l.map (fun mp => mp.fieldSignature.id)).Nodup) {x : FieldMapping} (hx : x ∈ l) :
    l.find? (fun mp => mp.fieldSignature.id == x.fieldSignature.id) = some x := by
  induction l with
  | nil => exact absurd hx (List.not_mem_nil x)
  | cons y ys ih =>
    rw [List.map_cons, List.nodup_cons] at h
    rcases List.mem_cons.mp hx with rfl | hx2
    · rw [List.find?_cons, beq_self_eq_true]
    · rw [List.find?_cons]
      have hne : (y.fieldSignature.id == x.fieldSignature.id) = false := by
        rw [beq_eq_false_iff_ne]
        intro heq
        refine h.1 ?_
        rw [heq]
        exact List.mem_map_of_mem _ hx2
      rw [hne]
      exact ih h.2 hx2

/-- C4.  `mergeWithStaticMappings` keeps exactly one mapping per field id
(present exactly for the ids of the two input lists), and for an id present
in both lists it keeps the LLM mapping only when its confidence is strictly
greater, the static mapping otherwise (ties included). -/
theorem c4_merge_one_per_id_prefers_higher_confidence
    (llmMappings staticMappings : List FieldMapping)
    (hstat : (staticMappings.map (fun mp => mp.fieldSignature.id)).Nodup)
    (hllm : (llmMappings.map (fun mp => mp.fieldSignature.id)).Nodup) :
    (∀ i : String,
      (mergeWithStaticMappings llmMappings staticMappings).countP
          (fun mm => mm.fieldSignature.id == i) =
        if (∃ mm ∈ staticMappings, mm.fieldSignature.id = i) ∨
            (∃ mm ∈ llmMappings, mm.fieldSignature.id = i) then 1 else 0) ∧
    (∀ ms ∈ staticMappings, ∀ ml ∈ llmMappings,
      ms.fieldSignature.id = ml.fieldSignature.id →
      (ms.confidence < ml.confidence →
        ml ∈ mergeWithStaticMappings llmMappings staticMappings) ∧
      (¬ ms.confidence < ml.confidence →
        ms ∈ mergeWithStaticMappings llmMappings staticMappings)) := by
  have hm0 : staticMappings.foldl mergeSetStatic [] =
      staticMappings.map (fun mp => (mp.fieldSignature.id, mp)) := by
    have h := foldl_mergeSetStatic_fresh staticMappings [] hstat (fun mp _ => rfl)
    simpa using h
  have hm0look : ∀ i, mapLookup (staticMappings.foldl mergeSetStatic []) i =
      staticMappings.find? (fun mp => mp.fieldSignature.id == i) := by
    intro i
    rw [hm0]
    exact mapLookup_pairs staticMappings i
  have hlookAll : ∀ i,
      mapLookup (llmMappings.foldl mergeStepLlm (staticMappings.foldl mergeSetStatic [])) i =
        match llmMappings.find? (fun mp => mp.fieldSignature.id == i) with
        | some ml =>
          match staticMappings.find? (fun mp => mp.fieldSignature.id == i) with
          | some ex => if ex.confidence < ml.confidence then some ml else some ex
          | none => some ml
        | none => staticMappings.find? (fun mp => mp.fieldSignature.id == i) := by
    intro i
    rw [foldl_mergeStepLlm_lookup llmMappings _ hllm i, hm0look i]
  have hinv : ∀ p ∈ llmMappings.foldl mergeStepLlm (staticMappings.foldl mergeSetStatic []),
      p.2.fieldSignature.id = p.1 := by
    refine foldl_mergeStepLlm_invariant llmMappings _ ?_
    rw [hm0]
    intro p hp
    obtain ⟨mp, hmp, hpe⟩ := List.mem_map.mp hp
    rw [← hpe]
  have hkeys : ((llmMappings.foldl mergeStepLlm
      (staticMappings.foldl mergeSetStatic [])).map Prod.fst).Nodup := by
    refine foldl_mergeStepLlm_keys_nodup llmMappings _ ?_
    rw [hm0, List.map_map]
    exact hstat
  have hmergeEq : mergeWithStaticMappings llmMappings staticMappings =
      (llmMappings.foldl mergeStepLlm (staticMappings.foldl mergeSetStatic [])).map
        (fun p => p.2) := rfl
  constructor
  · intro i
    rw [hmergeEq, List.countP_map]
    rw [List.countP_congr (q := fun p => p.1 == i) ?hcong]
    case hcong =>
      intro p hp
      constructor
      · intro hb
        show (p.1 == i) = true
        have hb2 : (p.2.fieldSignature.id == i) = true := hb
        rw [hinv p hp] at hb2
        exact hb2
      · intro hb
        show (p.2.fieldSignature.id == i) = true
        rw [hinv p hp]
        exact hb
    rw [countP_fst_of_keys_nodup i _ hkeys]
    by_cases hex : (∃ mm ∈ staticMappings, mm.fieldSignature.id = i) ∨
        (∃ mm ∈ llmMappings, mm.fieldSignature.id = i)
    · rw [if_pos hex]
      have hsome : ∃ x, mapLookup (llmMappings.foldl mergeStepLlm
          (staticMappings.foldl mergeSetStatic [])) i = some x := by
        have hval := hlookAll i
        cases hfl : llmMappings.find? (fun mp => mp.fieldSignature.id == i) with
        | some ml =>
          cases hfs : staticMappings.find? (fun mp => mp.fieldSignature.id == i) with
          | some ex =>
            simp only [hfl, hfs] at hval
            by_cases hconf : ex.confidence < ml.confidence
            · rw [if_pos hconf] at hval
              exact ⟨ml, hval⟩
            · rw [if_neg hconf] at hval
              exact ⟨ex, hval⟩
          | none =>
            simp only [hfl, hfs] at hval
            exact ⟨ml, hval⟩
        | none =>
          simp only [hfl] at hval
          rcases hex with ⟨mm, hmm, hid⟩ | ⟨mm, hmm, hid⟩
          · have hex2 : ∃ x ∈ staticMappings, (x.fieldSignature.id == i) = true :=
              ⟨mm, hmm, beq_iff_eq.mpr hid⟩
            obtain ⟨y, hy⟩ := Option.isSome_iff_exists.mp (List.find?_isSome.mpr hex2)
            refine ⟨y, ?_⟩
            rw [hval, hy]
          · rw [List.find?_eq_none] at hfl
            exact absurd (show (mm.fieldSignature.id == i) = true from beq_iff_eq.mpr hid)
              (hfl mm hmm)
      obtain ⟨x, hx⟩ := hsome
      rw [if_pos ?hmem]
      case hmem =>
        by_contra hnot
        rw [← mapLookup_eq_none_iff] at hnot
        rw [hnot] at hx
        exact Option.noConfusion hx
    · rw [if_neg hex]
      have hfl : llmMappings.find? (fun mp => mp.fieldSignature.id == i) = none := by
        rw [List.find?_eq_none]
        intro x hx hpx
        exact hex (Or.inr ⟨x, hx, beq_iff_eq.mp hpx⟩)
      have hfs : staticMappings.find? (fun mp => mp.fieldSignature.id == i) = none := by
        rw [List.find?_eq_none]
        intro x hx hpx
        exact hex (Or.inl ⟨x, hx, beq_iff_eq.mp hpx⟩)
      have hnone : mapLookup (llmMappings.foldl mergeStepLlm
          (staticMappings.foldl mergeSetStatic [])) i = none := by
        rw [hlookAll i, hfl, hfs]
      rw [if_neg (mapLookup_eq_none_iff.mp hnone)]
  · intro ms hms ml hml hid
    have hfs : staticMappings.find?
        (fun mp => mp.fieldSignature.id == ms.fieldSignature.id) = some ms :=
      find?_id_of_nodup hstat hms
    have hfl : llmMappings.find?
        (fun mp => mp.fieldSignature.id == ms.fieldSignature.id) = some ml := by
      have h := find?_id_of_nodup hllm hml
      rw [← hid] at h
      exact h
    have hlook := hlookAll ms.fieldSignature.id
    simp only [hfl, hfs] at hlook
    constructor
    · intro hconf
      rw [if_pos hconf] at hlook
      rw [hmergeEq]
      exact mapLookup_mem hlook
    · intro hconf
      rw [if_neg hconf] at hlook
      rw [hmergeEq]
      exact mapLookup_mem hlook

/-- C7.  `VectorStore.search` returns the entries whose cosine similarity
with the query meets the threshold, sorted by similarity descending and
truncated to at most topK: the result's length is exactly
`min topK #qualifying`; every returned result meets the threshold and scores
an entry of the store with its cosine similarity to the query; the result
together with a leftover list of dominated (everywhere lower-or-equal
similarity) results is a permutation of the whole filtered scored list, so in
the over-full case exactly the topK highest-similarity qualifying entries are
kept; when at most topK entries qualify, every qualifying entry's scored
result is returned, and any qualifying entry missing from the result implies
the result is full (length topK) with every kept similarity at least the
missing one's; and an entry whose embedding dimensionality differs from the
query's gets similarity zero rather than an error. -/
theorem c7_vector_search_spec (vectors : List VectorEntry) (queryEmbedding : List ℝ)
    (topK : ℕ) (threshold : ℝ) :
    (vectorSearch vectors queryEmbedding topK threshold).length ≤ topK ∧
    ((vectorSearch vectors queryEmbedding topK threshold).map
        (fun r => r.similarity)).Pairwise (fun a b => b ≤ a) ∧
    (∀ r ∈ vectorSearch vectors queryEmbedding topK threshold,
      threshold ≤ r.similarity ∧ r.entry ∈ vectors ∧
      r.similarity = cosineSimilarity queryEmbedding r.entry.embedding) ∧
    ((vectors.countP
        (fun v => decide (threshold ≤ cosineSimilarity queryEmbedding v.embedding)) ≤ topK) →
      ∀ v ∈ vectors, threshold ≤ cosineSimilarity queryEmbedding v.embedding →
        (⟨v, cosineSimilarity queryEmbedding v.embedding⟩ : VectorSearchResult) ∈
          vectorSearch vectors queryEmbedding topK threshold) ∧
    (∀ v ∈ vectors, v.embedding.length ≠ queryEmbedding.length →
      cosineSimilarity queryEmbedding v.embedding = 0) ∧
    (vectorSearch vectors queryEmbedding topK threshold).length =
      min topK (vectors.countP
        (fun v => decide (threshold ≤ cosineSimilarity queryEmbedding v.embedding))) ∧
    (∃ rest : List VectorSearchResult,
      (vectorSearch vectors queryEmbedding topK threshold ++ rest).Perm
        ((vectors.map (fun v =>
            (⟨v, cosineSimilarity queryEmbedding v.embedding⟩ : VectorSearchResult))).filter
          (fun r => decide (threshold ≤ r.similarity))) ∧
      ∀ r ∈ vectorSearch vectors queryEmbedding topK threshold, ∀ s ∈ rest,
        s.similarity ≤ r.similarity) ∧
    (∀ v ∈ vectors, threshold ≤ cosineSimilarity queryEmbedding v.embedding →
      (⟨v, cosineSimilarity queryEmbedding v.embedding⟩ : VectorSearchResult) ∉
        vectorSearch vectors queryEmbedding topK threshold →
      (vectorSearch vectors queryEmbedding topK threshold).length = topK ∧
      ∀ r ∈ vectorSearch vectors queryEmbedding topK threshold,
        cosineSimilarity queryEmbedding v.embedding ≤ r.similarity) := by
  have hdim : ∀ v ∈ vectors, v.embedding.length ≠ queryEmbedding.length →
      cosineSimilarity queryEmbedding v.embedding = 0 := by
    intro v _ hne
    unfold cosineSimilarity
    rw [if_pos (fun h => hne h.symm)]
  by_cases hempty : vectors.isEmpty
  · have hnil : vectors = [] := List.isEmpty_iff.mp hempty
    subst hnil
    have hres : vectorSearch [] queryEmbedding topK threshold = [] := by
      simp [vectorSearch]
    refine ⟨?_, ?_, ?_, ?_, hdim, ?_, ?_, ?_⟩
    · simp [hres]
    · simp [hres]
    · intro r hr
      rw [hres] at hr
      exact absurd hr (List.not_mem_nil r)
    · intro _ v hv
      exact absurd hv (List.not_mem_nil v)
    · simp [hres]
    · refine ⟨[], by simp [hres], ?_⟩
      intro r hr
      rw [hres] at hr
      exact absurd hr (List.not_mem_nil r)
    · intro v hv
      exact absurd hv (List.not_mem_nil v)
  · have hsearch : vectorSearch vectors queryEmbedding topK threshold =
        (((vectors.map (fun v =>
            (⟨v, cosineSimilarity queryEmbedding v.embedding⟩ : VectorSearchResult))).filter
          (fun r => decide (threshold ≤ r.similarity))).mergeSort
          (fun a b => decide (b.similarity ≤ a.similarity))).take topK := by
      unfold vectorSearch
      rw [if_neg hempty]
    have htrans : ∀ a b c : VectorSearchResult,
        (decide (b.similarity ≤ a.similarity)) = true →
        (decide (c.similarity ≤ b.similarity)) = true →
        (decide (c.similarity ≤ a.similarity)) = true := by
      intro a b c hab hbc
      rw [decide_eq_true_eq] at hab hbc ⊢
      exact le_trans hbc hab
    have htotal : ∀ a b : VectorSearchResult,
        ((decide (b.similarity ≤ a.similarity)) ||
          (decide (a.similarity ≤ b.similarity))) = true := by
      intro a b
      rcases le_total b.similarity a.similarity with h | h
      · rw [decide_eq_true_eq.mpr h]
        simp
      · rw [Bool.or_comm, decide_eq_true_eq.mpr h]
        simp
    have hsorted := List.sorted_mergeSort htrans htotal
      ((vectors.map (fun v =>
          (⟨v, cosineSimilarity queryEmbedding v.embedding⟩ : VectorSearchResult))).filter
        (fun r => decide (threshold ≤ r.similarity)))
    have hPW : ((((vectors.map (fun v =>
        (⟨v, cosineSimilarity queryEmbedding v.embedding⟩ : VectorSearchResult))).filter
        (fun r => decide (threshold ≤ r.similarity))).mergeSort
        (fun a b => decide (b.similarity ≤ a.similarity)))).Pairwise
        (fun a b => b.similarity ≤ a.similarity) := by
      refine hsorted.imp ?_
      intro a b hab
      exact of_decide_eq_true hab
    have hA : (vectorSearch vectors queryEmbedding topK threshold).length ≤ topK := by
      rw [hsearch]
      exact List.length_take_le topK _
    have hB : ((vectorSearch vectors queryEmbedding topK threshold).map
        (fun r => r.similarity)).Pairwise (fun a b => b ≤ a) := by
      rw [hsearch, List.pairwise_map]
      exact List.Pairwise.sublist (List.take_sublist topK _) hPW
    have hC : ∀ r ∈ vectorSearch vectors queryEmbedding topK threshold,
        threshold ≤ r.similarity ∧ r.entry ∈ vectors ∧
        r.similarity = cosineSimilarity queryEmbedding r.entry.embedding := by
      intro r hr
      rw [hsearch] at hr
      have hr2 := List.mem_mergeSort.mp (List.mem_of_mem_take hr)
      obtain ⟨hrmem, hrpred⟩ := List.mem_filter.mp hr2
      obtain ⟨v, hv, hve⟩ := List.mem_map.mp hrmem
      refine ⟨of_decide_eq_true hrpred, ?_, ?_⟩
      · rw [← hve]
        exact hv
      · rw [← hve]
    have hF : (vectorSearch vectors queryEmbedding topK threshold).length =
        min topK (vectors.countP
          (fun v => decide (threshold ≤ cosineSimilarity queryEmbedding v.embedding))) := by
      rw [hsearch, List.length_take, List.length_mergeSort,
        ← List.countP_eq_length_filter, List.countP_map]
      rfl
    have hD : (vectors.countP
        (fun v => decide (threshold ≤ cosineSimilarity queryEmbedding v.embedding)) ≤ topK) →
        ∀ v ∈ vectors, threshold ≤ cosineSimilarity queryEmbedding v.embedding →
        (⟨v, cosineSimilarity queryEmbedding v.embedding⟩ : VectorSearchResult) ∈
          vectorSearch vectors queryEmbedding topK threshold := by
      intro hcount v hv hsim
      rw [hsearch]
      have hfiltlen : ((vectors.map (fun v =>
          (⟨v, cosineSimilarity queryEmbedding v.embedding⟩ : VectorSearchResult))).filter
          (fun r => decide (threshold ≤ r.similarity))).length ≤ topK := by
        rw [← List.countP_eq_length_filter, List.countP_map]
        exact hcount
      have htake : ((((vectors.map (fun v =>
          (⟨v, cosineSimilarity queryEmbedding v.embedding⟩ : VectorSearchResult))).filter
          (fun r => decide (threshold ≤ r.similarity))).mergeSort
          (fun a b => decide (b.similarity ≤ a.similarity))).take topK) =
          (((vectors.map (fun v =>
          (⟨v, cosineSimilarity queryEmbedding v.embedding⟩ : VectorSearchResult))).filter
          (fun r => decide (threshold ≤ r.similarity))).mergeSort
          (fun a b => decide (b.similarity ≤ a.similarity))) := by
        refine List.take_of_length_le ?_
        rw [List.length_mergeSort]
        exact hfiltlen
      rw [htake, List.mem_mergeSort, List.mem_filter]
      constructor
      · exact List.mem_map_of_mem _ hv
      · exact decide_eq_true hsim
    have hG : ∃ rest : List VectorSearchResult,
        (vectorSearch vectors queryEmbedding topK threshold ++ rest).Perm
          ((vectors.map (fun v =>
              (⟨v, cosineSimilarity queryEmbedding v.embedding⟩ : VectorSearchResult))).filter
            (fun r => decide (threshold ≤ r.similarity))) ∧
        ∀ r ∈ vectorSearch vectors queryEmbedding topK threshold, ∀ s ∈ rest,
          s.similarity ≤ r.similarity := by
      refine ⟨((((vectors.map (fun v =>
          (⟨v, cosineSimilarity queryEmbedding v.embedding⟩ : VectorSearchResult))).filter
          (fun r => decide (threshold ≤ r.similarity))).mergeSort
          (fun a b => decide (b.similarity ≤ a.similarity))).drop topK), ?_, ?_⟩
      · rw [hsearch, List.take_append_drop]
        exact List.mergeSort_perm _ _
      · intro r hr s hs
        rw [hsearch] at hr
        have hPW2 := hPW
        rw [← List.take_append_drop topK (((vectors.map (fun v =>
            (⟨v, cosineSimilarity queryEmbedding v.embedding⟩ : VectorSearchResult))).filter
            (fun r => decide (threshold ≤ r.similarity))).mergeSort
            (fun a b => decide (b.similarity ≤ a.similarity)))] at hPW2
        obtain ⟨-, -, hcross⟩ := List.pairwise_append.mp hPW2
        exact hcross r hr s hs
    have hH : ∀ v ∈ vectors, threshold ≤ cosineSimilarity queryEmbedding v.embedding →
        (⟨v, cosineSimilarity queryEmbedding v.embedding⟩ : VectorSearchResult) ∉
          vectorSearch vectors queryEmbedding topK threshold →
        (vectorSearch vectors queryEmbedding topK threshold).length = topK ∧
        ∀ r ∈ vectorSearch vectors queryEmbedding topK threshold,
          cosineSimilarity queryEmbedding v.embedding ≤ r.similarity := by
      intro v hv hsim hnot
      obtain ⟨rest, hperm, hdomin⟩ := hG
      have hmemf : (⟨v, cosineSimilarity queryEmbedding v.embedding⟩ : VectorSearchResult) ∈
          ((vectors.map (fun v =>
              (⟨v, cosineSimilarity queryEmbedding v.embedding⟩ : VectorSearchResult))).filter
            (fun r => decide (threshold ≤ r.similarity))) :=
        List.mem_filter.mpr ⟨List.mem_map_of_mem _ hv, decide_eq_true hsim⟩
      have hmem2 := hperm.mem_iff.mpr hmemf
      rcases List.mem_append.mp hmem2 with hin | hrest
      · exact absurd hin hnot
      · constructor
        · by_cases hcount : vectors.countP
              (fun v => decide (threshold ≤ cosineSimilarity queryEmbedding v.embedding)) ≤ topK
          · exact absurd (hD hcount v hv hsim) hnot
          · rw [hF]
            exact min_eq_left (Nat.le_of_lt (Nat.lt_of_not_le hcount))
        · intro r hr
          exact hdomin r hr _ hrest
    exact ⟨hA, hB, hC, hD, hdim, hF, hG, hH⟩

/-- Witness for C1's amended theorem at a concrete input. -/
theorem c1_amended_witness_concrete :
    c1Mapping.fieldSignature.semanticClass ≠ SemanticClass.password :=
  c1_amended_no_password_class_mapping [c1Field] c1Profile c1Mapping
    (by
      rw [show createSuggestedMappings [c1Field] c1Profile = [c1Mapping] from rfl]
      exact List.mem_singleton.mpr rfl)

/-- Witness for C4 at a concrete input: on an id present in both lists with
equal confidences, the static mapping is kept. -/
theorem c4_witness :
    c4StaticMapping ∈ mergeWithStaticMappings [c4LlmMapping] [c4StaticMapping] :=
  ((c4_merge_one_per_id_prefers_higher_confidence [c4LlmMapping] [c4StaticMapping]
      (by decide) (by decide)).2 c4StaticMapping (List.mem_singleton.mpr rfl)
      c4LlmMapping (List.mem_singleton.mpr rfl) rfl).2 (by decide)

/-- Witness for C7 at a concrete input: a 2-dimensional entry scored against
a 1-dimensional query gets similarity zero. -/
theorem c7_witness :
    cosineSimilarity [(1 : ℝ)] c7Entry.embedding = 0 :=
  (c7_vector_search_spec [c7Entry] [(1 : ℝ)] 5 0).2.2.2.2.1 c7Entry
    (List.mem_singleton.mpr rfl) (by decide)

/-- Witness for C8 at a concrete input. -/
theorem c8_witness :
    (⟨c8Field, "John Doe", 0.9, .static⟩ : FieldMapping) ∈
      createSuggestedMappings [c8Field] c8Profile :=
  c8_full_name_join [c8Field] c8Profile ⟨"firstName", "John", false⟩
    ⟨"lastName", "Doe", false⟩ c8Field rfl (by decide) rfl (by decide) rfl rfl
    (by decide) (by decide)

/-- Witness for C9's amended theorem at a concrete input. -/
theorem c9_witness :
    embedBatch c9FailApi ["a"] true [] = ([], .error "down") :=
  c9_single_call_failure_leaves_cache ["a"] [] "down" c9FailApi (by decide) (by decide)
    (by decide) rfl
